import Mathlib

/-!
# Verification of the inventory movement engine (src/src/App.tsx)

Shallow embedding of the inventory web app's core logic: identifier
normalization, scan debouncing, the request-generation guard, the
per-location balance cache, the single-line movement executors
(receive / send / transfer), the batch cart and batch submitters.

Strings are modelled as `List Char` (JS strings restricted to the
code points this app manipulates); JS `number` quantities are modelled
as `Int`, with `Option Int` where `NaN` can flow in (`none` = NaN).
Asynchronous store round trips are modelled by passing the store's
response (or a response oracle) as an explicit argument to the
continuation that consumes it.
-/

/-- Characters of a string literal, for readable concrete inputs. -/
def strL (s : String) : List Char := s.data

/-- The whitespace class tested by JS `trim()` and the `\s` regex class
(ASCII subset; the app's inputs are scanned/typed ASCII codes). -/
def jsIsSpace (c : Char) : Bool :=
  c = ' ' || c = '\t' || c = '\n' || c = '\r' || c = '\x0b' || c = '\x0c'

/-- `s.trimStart()` side of JS `trim`. -/
def jsTrimLeft (s : List Char) : List Char := s.dropWhile jsIsSpace

/-- `s.trimEnd()` side of JS `trim`. -/
def jsTrimRight (s : List Char) : List Char := (s.reverse.dropWhile jsIsSpace).reverse

/-- JS `s.trim()`. -/
def jsTrim (s : List Char) : List Char := jsTrimRight (jsTrimLeft s)

/-- `s.split("/").pop()`: the suffix after the last `'/'`.  JS `split`
always returns a non-empty array, so `pop()` is never `undefined` and the
`?? trimmed` fallback in the source is dead; on a string with no `'/'`
this is the string itself. -/
def afterLastSlash (s : List Char) : List Char :=
  (s.reverse.takeWhile (fun c => c ≠ '/')).reverse

/-- `s.split(d)[0]`: the prefix before the first occurrence of `d`. -/
def takeUntil (d : Char) (s : List Char) : List Char :=
  s.takeWhile (fun c => c ≠ d)

/-- One character of `replace(/[–—−]/g, "-")`: unicode en dash, em dash
and minus sign become an ASCII hyphen. -/
def dashChar (c : Char) : Char :=
  if c = '–' || c = '—' || c = '−' then '-' else c

/-- `s.replace(/[–—−]/g, "-")`. -/
def dashReplace (s : List Char) : List Char := s.map dashChar

/-- `s.replace(/\s+/g, "")`: remove all whitespace. -/
def removeWs (s : List Char) : List Char := s.filter (fun c => !(jsIsSpace c))

/-- Does `s` end (case-insensitively) with `suf`?  `suf` is given in
lowercase, matching the `/i` flag of the extension regex. -/
def endsWithCI (suf s : List Char) : Bool :=
  List.isPrefixOf suf.reverse ((s.map Char.toLower).reverse)

/-- `s.replace(/\.(png|jpg|jpeg|webp)$/i, "")`: strip one trailing
image-file extension, case-insensitively.  A string ends with at most one
of the four alternatives, so testing them in any order matches the regex. -/
def stripImageExt (s : List Char) : List Char :=
  if endsWithCI (strL ".png") s then s.take (s.length - 4)
  else if endsWithCI (strL ".jpg") s then s.take (s.length - 4)
  else if endsWithCI (strL ".jpeg") s then s.take (s.length - 5)
  else if endsWithCI (strL ".webp") s then s.take (s.length - 5)
  else s

/-- `normalizeProductCode` (App.tsx lines 1525–1536), step for step:
trim; if the text contains `'/'`, keep only the last path segment; cut at
the first `'?'` and `'#'`; then, chained in source order: replace unicode
dashes, remove whitespace, strip a trailing image extension.
There is no uppercasing step here. -/
def normalizeProductCode (input : List Char) : List Char :=
  let trimmed := jsTrim input
  let lastSegment := if trimmed.contains '/' then afterLastSlash trimmed else trimmed
  let clean := takeUntil '#' (takeUntil '?' lastSegment)
  stripImageExt (removeWs (dashReplace clean))

/-- JS `split(d)` on a character separator. -/
def splitOnChar (d : Char) : List Char → List (List Char)
  | [] => [[]]
  | c :: rest =>
    if c = d then [] :: splitOnChar d rest
    else
      match splitOnChar d rest with
      | [] => [[c]]
      | seg :: segs => (c :: seg) :: segs

/-- The `[A-Za-z0-9]` regex class. -/
def isAlnum (c : Char) : Bool :=
  ('0' ≤ c && c ≤ '9') || ('A' ≤ c && c ≤ 'Z') || ('a' ≤ c && c ≤ 'z')

/-- `isValidProductCodeFormat` (App.tsx lines 1543–1547): the regex
`^[A-Za-z0-9]{1,6}(-[A-Za-z0-9]{1,6}){3}$`, i.e. splitting on `'-'`
yields exactly four segments of 1–6 alphanumeric characters (segments
contain no `'-'`, so the two formulations agree). -/
def isValidProductCodeFormat (s : List Char) : Bool :=
  let segs := splitOnChar '-' s
  segs.length == 4 &&
    segs.all (fun seg => 1 ≤ seg.length && seg.length ≤ 6 && seg.all isAlnum)

example : isValidProductCodeFormat (strL "RB-10-02-16") = true := by decide
example : isValidProductCodeFormat (strL "RB-10-02") = false := by decide
example : isValidProductCodeFormat (strL "RB-10-02-16-9") = false := by decide
example : normalizeProductCode (strL " RB-10-02-16.jpg ") = strL "RB-10-02-16" := by decide
example : normalizeProductCode (strL "https://x.y/img/RB-10-02-16.jpg?x=1") = strL "RB-10-02-16" := by decide
example : normalizeProductCode (strL "RB-10-02-16/") = strL "" := by decide
example : normalizeProductCode (strL "rb-10-02-16") = strL "rb-10-02-16" := by decide
example : normalizeProductCode (strL "RB-10-02-16.J PG") = strL "RB-10-02-16" := by decide

/-! ## Movement engine (single-line executors) -/

/-- `(s || "").trim().toUpperCase()` as applied to product codes by the
executors and `addToCart`.  `|| ""` only replaces a null string by the
empty one and is the identity here; `toUpperCase` is `Char.toUpper`
pointwise (ASCII model). -/
def canonCode (productCode : List Char) : List Char :=
  (jsTrim productCode).map Char.toUpper

/-- `Math.max(1, Number(qty) || 1)`: `none` models a `NaN` quantity
(`Number(NaN) || 1 = 1`), `some 0` is falsy and also becomes `1`. -/
def jsClampQty : Option Int → Int
  | none => 1
  | some q => max 1 (if q = 0 then 1 else q)

/-- One call to the `adjust_inventory_by_location_test` RPC, with the
exact payload fields built by the executors. -/
structure RpcCall where
  p_product_code : List Char
  p_location_id : List Char
  p_delta : Int
  p_reason : List Char
  p_note : Option (List Char)
deriving DecidableEq, Repr

/-- The distinct `throw` sites of the three executors.  Dynamic RPC error
messages are carried verbatim; constant message texts live at the throw
site in the source and are identified here by the constructor. -/
inductive MovementError where
  | missingProductCode
  | missingToLocation
  | missingFromLocation
  | missingFromToLocation
  | sameLocation
  | insufficientStock (avail need : Int)
  | insufficientStockTransfer (avail need : Int)
  | rpcError (msg : List Char)
  | transferOutError (msg : List Char)
  | transferInError (msg : List Char)
deriving DecidableEq, Repr

instance {ε α : Type} [DecidableEq ε] [DecidableEq α] : DecidableEq (Except ε α) := fun x y =>
  match x, y with
  | .error a, .error b =>
    if h : a = b then isTrue (by rw [h]) else isFalse (fun he => by cases he; exact h rfl)
  | .ok a, .ok b =>
    if h : a = b then isTrue (by rw [h]) else isFalse (fun he => by cases he; exact h rfl)
  | .error _, .ok _ => isFalse (fun he => by cases he)
  | .ok _, .error _ => isFalse (fun he => by cases he)

/-- Outcome of one executor run: the RPC calls it issued, in order, and
its result (`.error e` models a thrown exception). -/
structure ExecResult where
  calls : List RpcCall
  result : Except MovementError Unit
deriving DecidableEq, Repr

/-- Row of the `locBalances` state (location_code is display-only). -/
structure LocBalance where
  location_id : List Char
  on_hand : Int
  location_code : Option (List Char)
deriving DecidableEq, Repr

/-- `getOnHandAt` (App.tsx lines 1941–1945): the cached on-hand at a
location, `0` for a blank id or a location absent from the breakdown. -/
def getOnHandAt (locBalances : List LocBalance) (locationId : List Char) : Int :=
  if locationId = [] then 0
  else
    match locBalances.find? (fun x => x.location_id == locationId) with
    | some row => row.on_hand
    | none => 0

/-- `p_note: invNote || null`. -/
def notePayload (invNote : List Char) : Option (List Char) :=
  if invNote = [] then none else some invNote

/-- The debit call a send issues. -/
def sendCall (code fromLoc : List Char) (q : Int) (invNote : List Char) : RpcCall :=
  ⟨code, fromLoc, -q, strL "send", notePayload invNote⟩

/-- The credit call a receive issues. -/
def receiveCall (code toLoc : List Char) (q : Int) (invNote : List Char) : RpcCall :=
  ⟨code, toLoc, q, strL "receive", notePayload invNote⟩

/-- The transfer debit leg. -/
def transferOutCall (code fromLoc : List Char) (q : Int) (invNote : List Char) : RpcCall :=
  ⟨code, fromLoc, -q, strL "transfer_out", notePayload invNote⟩

/-- The transfer credit leg. -/
def transferInCall (code toLoc : List Char) (q : Int) (invNote : List Char) : RpcCall :=
  ⟨code, toLoc, q, strL "transfer_in", notePayload invNote⟩

/-- `receiveSingleLine` (App.tsx lines 1639–1655).  `store` is the RPC
oracle: `none` = success, `some msg` = error with that message. -/
def receiveSingleLine (invNote : List Char) (store : RpcCall → Option (List Char))
    (productCode : List Char) (qty : Option Int) (toLoc : List Char) : ExecResult :=
  let code := canonCode productCode
  let q := jsClampQty qty
  if code = [] then ⟨[], .error .missingProductCode⟩
  else if toLoc = [] then ⟨[], .error .missingToLocation⟩
  else
    let call := receiveCall code toLoc q invNote
    match store call with
    | some msg => ⟨[call], .error (.rpcError msg)⟩
    | none => ⟨[call], .ok ()⟩

/-- `sendSingleLine` (App.tsx lines 1730–1747): advisory sufficiency
check against the cached `locBalances`, then the debit RPC. -/
def sendSingleLine (invNote : List Char) (locBalances : List LocBalance)
    (store : RpcCall → Option (List Char))
    (productCode : List Char) (qty : Option Int) (fromLoc : List Char) : ExecResult :=
  let code := canonCode productCode
  let q := jsClampQty qty
  if code = [] then ⟨[], .error .missingProductCode⟩
  else if fromLoc = [] then ⟨[], .error .missingFromLocation⟩
  else
    let available := getOnHandAt locBalances fromLoc
    if q > available then ⟨[], .error (.insufficientStock available q)⟩
    else
      let call := sendCall code fromLoc q invNote
      match store call with
      | some msg => ⟨[call], .error (.rpcError msg)⟩
      | none => ⟨[call], .ok ()⟩

/-- `transferSingleLine` (App.tsx lines 1822–1849): validation and
sufficiency check, then the debit leg, then — only if the debit
succeeded — the credit leg.  No compensating call on a credit failure. -/
def transferSingleLine (invNote : List Char) (locBalances : List LocBalance)
    (store : RpcCall → Option (List Char)) (productCode : List Char) (qty : Option Int)
    (fromLocationId toLocationId : List Char) : ExecResult :=
  let code := canonCode productCode
  let q := jsClampQty qty
  if code = [] then ⟨[], .error .missingProductCode⟩
  else if fromLocationId = [] || toLocationId = [] then ⟨[], .error .missingFromToLocation⟩
  else if fromLocationId = toLocationId then ⟨[], .error .sameLocation⟩
  else
    let available := getOnHandAt locBalances fromLocationId
    if q > available then ⟨[], .error (.insufficientStockTransfer available q)⟩
    else
      let out1 := transferOutCall code fromLocationId q invNote
      match store out1 with
      | some msg => ⟨[out1], .error (.transferOutError msg)⟩
      | none =>
        let in1 := transferInCall code toLocationId q invNote
        match store in1 with
        | some msg => ⟨[out1, in1], .error (.transferInError msg)⟩
        | none => ⟨[out1, in1], .ok ()⟩


/-! ## Batch cart (Batch Aggregator state) -/

/-- A cart line: `{ product_code, qty }`. -/
structure CartLine where
  product_code : List Char
  qty : Int
deriving DecidableEq, Repr

/-- `copy[idx] = { ...copy[idx], qty: copy[idx].qty + 1 }` for the first
index matching `code` (the `findIndex` branch of `addToCart`). -/
def bumpFirst (code : List Char) : List CartLine → List CartLine
  | [] => []
  | x :: xs =>
    if x.product_code = code then { x with qty := x.qty + 1 } :: xs
    else x :: bumpFirst code xs

/-- `addToCart` (App.tsx lines 2003–2018): canonicalize the code; ignore
a blank; increment the first existing line for the code, otherwise
prepend a fresh line with qty 1.  (`setActiveCode` is display state and
not part of the cart.) -/
def addToCart (codeRaw : List Char) (prev : List CartLine) : List CartLine :=
  let code := canonCode codeRaw
  if code = [] then prev
  else if prev.any (fun x => x.product_code == code) then bumpFirst code prev
  else ⟨code, 1⟩ :: prev

/-- `updateCartQty` (App.tsx lines 2020–2023): clamp the quantity and
write it to every line whose code matches. -/
def updateCartQty (code : List Char) (qty : Option Int) (prev : List CartLine) : List CartLine :=
  let q := jsClampQty qty
  prev.map (fun x => if x.product_code = code then { x with qty := q } else x)

/-- `removeFromCart` (App.tsx lines 2025–2027). -/
def removeFromCart (code : List Char) (prev : List CartLine) : List CartLine :=
  prev.filter (fun x => !(x.product_code == code))

/-- `clearCart` (App.tsx line 2029). -/
def clearCart : List CartLine := []

/-! ## Balance-cache refreshers -/

/-- One row of the `LOC_ON_HAND_TABLE` query made by `refreshLocBalances`
(its joined `locations_test.location_code` may be absent). -/
structure LocRow where
  location_id : List Char
  on_hand : Int
  location_code : Option (List Char)
deriving DecidableEq, Repr

/-- `refreshOnHandGlobal` (App.tsx lines 1607–1616) applied to the store
response: a query error is thrown (`if (invErr) throw invErr`); otherwise
the value written by `setInvOnHand` is `invRow?.on_hand ?? 0`. -/
def refreshOnHandGlobal (resp : Except (List Char) (Option Int)) : Except (List Char) Int :=
  match resp with
  | .error e => .error e
  | .ok row => .ok (row.getD 0)

/-- `refreshLocBalances` (App.tsx lines 1618–1634) applied to the store
response: a query error is thrown; otherwise `setLocBalances` receives
the rows with `location_code: r.locations_test?.location_code ?? r.location_id`. -/
def refreshLocBalances (resp : Except (List Char) (List LocRow)) :
    Except (List Char) (List LocBalance) :=
  match resp with
  | .error e => .error e
  | .ok rows =>
    .ok (rows.map (fun r => ⟨r.location_id, r.on_hand, some (r.location_code.getD r.location_id)⟩))

/-- JS `a || b` on nullable strings: `a` unless it is null or empty. -/
def jsOrStr (a b : Option (List Char)) : Option (List Char) :=
  match a with
  | some s => if s = [] then b else some s
  | none => b

/-- JS truthiness of a nullable string (`if (previewCode)`): `some s`
exactly when non-null and non-empty. -/
def jsTruthyStr : Option (List Char) → Option (List Char)
  | none => none
  | some s => if s = [] then none else some s

/-! ## Batch submitters -/

/-- `e?.message` classification of a batch run: the source renders these
as display strings; the structured content is kept here.  `batchFailed`
is the outer `catch` (`"Batch ... failed: ..."`), reached when a
balance-cache refresh after an all-success line loop throws. -/
inductive BatchError where
  | missingToLocation
  | missingFromLocation
  | missingFromToLocation
  | sameLocation
  | emptyCart
  | someFailed (failed : List (CartLine × MovementError))
  | batchFailed (msg : List Char)
deriving DecidableEq, Repr

/-- Observable outcome of a batch submit: the lines handed to the
per-line executor in order, the error surfaced via `setInvError`, the
cart after `setCartLines`/`clearCart`, whether `setInvSuccess` ran, and
the values written by the refreshers (`setInvOnHand` / `setLocBalances`)
when those steps were reached. -/
structure BatchResult where
  attempted : List CartLine
  invError : Option BatchError
  newCart : List CartLine
  success : Bool
  invOnHand : Option Int
  locBalances : Option (List LocBalance)
deriving DecidableEq, Repr

/-- The `for (const line of cartLines) { try ... catch { failed.push } }`
loop body shared by the three batch submitters. -/
def collectFailed (exec : CartLine → ExecResult) : List CartLine → List (CartLine × MovementError)
  | [] => []
  | line :: rest =>
    match (exec line).result with
    | .error e => (line, e) :: collectFailed exec rest
    | .ok _ => collectFailed exec rest

/-- Shared tail of the batch submitters: run every line; if any failed,
retain exactly the failed lines (`setCartLines(failed.map ...)`) and
return.  Otherwise compute `previewCode = activeCode || invProductCode`
and, when truthy, await `refreshOnHandGlobal` then `refreshLocBalances`;
a throw from either is caught by the outer `catch` (`batchFailed`) and
SKIPS `clearCart`, leaving the cart untouched.  Only when no refresh was
needed or both succeeded does the cart clear and success report. -/
def runBatch (exec : CartLine → ExecResult)
    (activeCode invProductCode : Option (List Char))
    (globalResp : List Char → Except (List Char) (Option Int))
    (locResp : List Char → Except (List Char) (List LocRow))
    (cartLines : List CartLine) : BatchResult :=
  let failed := collectFailed exec cartLines
  if failed = [] then
    match jsTruthyStr (jsOrStr activeCode invProductCode) with
    | none => ⟨cartLines, none, clearCart, true, none, none⟩
    | some pc =>
      match refreshOnHandGlobal (globalResp pc) with
      | .error msg => ⟨cartLines, some (.batchFailed msg), cartLines, false, none, none⟩
      | .ok v =>
        match refreshLocBalances (locResp pc) with
        | .error msg => ⟨cartLines, some (.batchFailed msg), cartLines, false, some v, none⟩
        | .ok bals => ⟨cartLines, none, clearCart, true, some v, some bals⟩
  else ⟨cartLines, some (.someFailed failed),
        failed.map (fun f => ⟨f.1.product_code, f.1.qty⟩), false, none, none⟩

/-- `submitReceiveBatch` (App.tsx lines 1687–1727). -/
def submitReceiveBatch (invNote : List Char) (store : RpcCall → Option (List Char))
    (activeCode invProductCode : Option (List Char))
    (globalResp : List Char → Except (List Char) (Option Int))
    (locResp : List Char → Except (List Char) (List LocRow))
    (receiveToLoc : List Char) (cartLines : List CartLine) : BatchResult :=
  if receiveToLoc = [] then ⟨[], some .missingToLocation, cartLines, false, none, none⟩
  else if cartLines = [] then ⟨[], some .emptyCart, cartLines, false, none, none⟩
  else runBatch
    (fun line => receiveSingleLine invNote store line.product_code (some line.qty) receiveToLoc)
    activeCode invProductCode globalResp locResp cartLines

/-- `submitSendBatch` (App.tsx lines 1779–1819).  Note `locBalances` is
not refreshed between lines: every line sees the same cached figures. -/
def submitSendBatch (invNote : List Char) (locBalances : List LocBalance)
    (store : RpcCall → Option (List Char))
    (activeCode invProductCode : Option (List Char))
    (globalResp : List Char → Except (List Char) (Option Int))
    (locResp : List Char → Except (List Char) (List LocRow))
    (sendFromLoc : List Char) (cartLines : List CartLine) : BatchResult :=
  if sendFromLoc = [] then ⟨[], some .missingFromLocation, cartLines, false, none, none⟩
  else if cartLines = [] then ⟨[], some .emptyCart, cartLines, false, none, none⟩
  else runBatch
    (fun line => sendSingleLine invNote locBalances store line.product_code (some line.qty) sendFromLoc)
    activeCode invProductCode globalResp locResp cartLines

/-- `submitTransferBatch` (App.tsx lines 1887–1929). -/
def submitTransferBatch (invNote : List Char) (locBalances : List LocBalance)
    (store : RpcCall → Option (List Char))
    (activeCode invProductCode : Option (List Char))
    (globalResp : List Char → Except (List Char) (Option Int))
    (locResp : List Char → Except (List Char) (List LocRow))
    (fromLoc toLoc : List Char) (cartLines : List CartLine) : BatchResult :=
  if fromLoc = [] || toLoc = [] then ⟨[], some .missingFromToLocation, cartLines, false, none, none⟩
  else if fromLoc = toLoc then ⟨[], some .sameLocation, cartLines, false, none, none⟩
  else if cartLines = [] then ⟨[], some .emptyCart, cartLines, false, none, none⟩
  else runBatch
    (fun line => transferSingleLine invNote locBalances store line.product_code (some line.qty) fromLoc toLoc)
    activeCode invProductCode globalResp locResp cartLines

/-! ## Single-item submit wrappers -/

/-- `!q || q <= 0` on a JS number (`none` = NaN, which is falsy). -/
def jsFalsyOrNonPos : Option Int → Bool
  | none => true
  | some q => q ≤ 0

/-- Outcome of a single-item submit wrapper. -/
inductive SingleSubmitOutcome where
  | noProduct
  | invalidLocation
  | invalidQty
  | executed (r : ExecResult)
deriving DecidableEq, Repr

/-- `submitReceive` (App.tsx lines 1657–1685): guards before the
executor; `invalidQty` is the "quantity must be at least 1" rejection. -/
def submitReceive (invNote : List Char) (store : RpcCall → Option (List Char))
    (invProductCode : Option (List Char)) (receiveToLoc : List Char)
    (receiveQty : Option Int) : SingleSubmitOutcome :=
  match invProductCode with
  | none => .noProduct
  | some pc =>
    if receiveToLoc = [] then .invalidLocation
    else if jsFalsyOrNonPos receiveQty then .invalidQty
    else .executed (receiveSingleLine invNote store pc receiveQty receiveToLoc)

/-- `submitSend` (App.tsx lines 1749–1777). -/
def submitSend (invNote : List Char) (locBalances : List LocBalance)
    (store : RpcCall → Option (List Char)) (invProductCode : Option (List Char))
    (sendFromLoc : List Char) (sendQty : Option Int) : SingleSubmitOutcome :=
  match invProductCode with
  | none => .noProduct
  | some pc =>
    if sendFromLoc = [] then .invalidLocation
    else if jsFalsyOrNonPos sendQty then .invalidQty
    else .executed (sendSingleLine invNote locBalances store pc sendQty sendFromLoc)

/-! ## Scan debouncer -/

/-- `lastScanRef.current`. -/
structure ScanLast where
  code : List Char
  ts : Int
deriving DecidableEq, Repr

/-- The debounce step of the decode callback (App.tsx lines 2302–2305):
returns whether the event is processed, and the updated ref.  A
suppressed event leaves the ref untouched; an accepted one overwrites it
with `{ code: productCode, ts: now }`. -/
def scanDebounce (last : ScanLast) (productCode : List Char) (now : Int) : Bool × ScanLast :=
  if last.code = productCode ∧ now - last.ts < 900 then (false, last)
  else (true, ⟨productCode, now⟩)

/-! ## Request generation guard (inventory lookup session) -/

/-- One row of the last-3 adjustment history. -/
structure Adjustment where
  id : Int
  delta : Int
  reason : Option (List Char)
  note : Option (List Char)
  created_at : List Char
deriving DecidableEq, Repr

/-- One row of the recent-movements history. -/
structure Movement where
  id : Int
  qty : Int
  note : Option (List Char)
  created_at : List Char
  from_location_id : List Char
  to_location_id : List Char
deriving DecidableEq, Repr

/-- The shared React state a lookup session reads and writes:
`invReqRef.current` plus the result fields set by the continuations. -/
structure InvState where
  invReq : Nat
  invSearchError : Option (List Char)
  invSearchCode : List Char
  invProductCode : Option (List Char)
  invDelta : Int
  invSuccess : Option (List Char)
  scanError : Option (List Char)
  invLoading : Bool
  invOnHand : Option Int
  invImageUrl : Option (List Char)
  invAdjustments : List Adjustment
  invMoves : List Movement
deriving DecidableEq, Repr

/-- A store response for a `maybeSingle()` query: transport error with a
message, or an optional row. -/
def QueryResp (α : Type) : Type := Except (List Char) (Option α)

/-- Synchronous prologue of `handleInventoryModeScan` (App.tsx lines
2371–2388): bump the generation counter, capture `reqId`, reset the
result fields.  (The `addToCart` call in batch mode acts on the cart, see
`addToCart`.)  Returns the captured generation with the new state. -/
def invScanStart (productCode : List Char) (st : InvState) : Nat × InvState :=
  let reqId := st.invReq + 1
  (reqId,
   { st with
      invReq := reqId
      invSearchError := none
      invSearchCode := productCode
      invProductCode := some productCode
      invDelta := 0
      invSuccess := none
      scanError := none
      invLoading := true
      invOnHand := none
      invImageUrl := none
      invAdjustments := [] })

/-- Continuation after the existence check (App.tsx lines 2391–2408):
guard first, then the error / not-found branches. -/
def invScanProdCont (reqId : Nat) (productCode : List Char)
    (resp : QueryResp (List Char)) (st : InvState) : InvState :=
  if reqId ≠ st.invReq then st
  else
    match resp with
    | .error msg =>
      { st with scanError := some (strL "Product check failed: " ++ msg), invLoading := false }
    | .ok none =>
      { st with scanError := some (strL "No product found for: " ++ productCode),
                invLoading := false }
    | .ok (some _) => st

/-- Continuation after the image-path fetch (App.tsx lines 2410–2433).
`getPublicUrl` is the synchronous URL resolver; the source re-checks the
guard after it (line 2429), which is mirrored here. -/
def invScanImageCont (reqId : Nat) (getPublicUrl : List Char → List Char)
    (resp : QueryResp (Option (List Char))) (st : InvState) : InvState :=
  if reqId ≠ st.invReq then st
  else
    match resp with
    | .error msg =>
      { st with scanError := some (strL "Image lookup failed: " ++ msg), invLoading := false }
    | .ok row =>
      match row.bind id with
      | some path =>
        if reqId ≠ st.invReq then st
        else { st with invImageUrl := some (getPublicUrl path) }
      | none => { st with invImageUrl := none }

/-- Continuation after the on-hand fetch (App.tsx lines 2436–2448): on
success the row is only captured for later (`invRow` is consumed by
`invScanFinishCont`), so the state is unchanged there. -/
def invScanOnHandCont (reqId : Nat) (resp : QueryResp Int) (st : InvState) : InvState :=
  if reqId ≠ st.invReq then st
  else
    match resp with
    | .error msg =>
      { st with scanError := some (strL "On-hand lookup failed: " ++ msg), invLoading := false }
    | .ok _ => st

/-- Continuation after the last-3-adjustments fetch (App.tsx lines
2450–2464): an error is reported but the lookup continues. -/
def invScanAdjCont (reqId : Nat) (resp : Except (List Char) (List Adjustment))
    (st : InvState) : InvState :=
  if reqId ≠ st.invReq then st
  else
    match resp with
    | .error msg =>
      { st with scanError := some (strL "Adjustment history failed: " ++ msg),
                invAdjustments := [] }
    | .ok rows => { st with invAdjustments := rows }

/-- Continuation inside `loadRecentMoves` (App.tsx lines 2534–2558),
which `handleInventoryModeScan` awaits as its recent-moves step: it
checks no generation and writes `invMoves` unconditionally. -/
def loadRecentMovesCont (resp : Except (List Char) (List Movement)) (st : InvState) : InvState :=
  match resp with
  | .error _ => { st with invMoves := [] }
  | .ok data => { st with invMoves := data }

/-- Final continuation (App.tsx lines 2468–2471), consuming the on-hand
row captured earlier (`invRow?.on_hand ?? 0`). -/
def invScanFinishCont (reqId : Nat) (onHandRow : Option Int) (st : InvState) : InvState :=
  if reqId ≠ st.invReq then st
  else { st with invOnHand := some (onHandRow.getD 0), invLoading := false }

/-! ## Caller-side post-processing and auxiliary predicates -/

/-- The code `handleInventorySearch` derives (App.tsx lines 2090–2096):
`normalizeProductCode(invSearchCode.trim()).toUpperCase()`. -/
def handleInventorySearchCode (invSearchCode : List Char) : List Char :=
  (normalizeProductCode (jsTrim invSearchCode)).map Char.toUpper

/-- The code the decode callback derives (App.tsx line 2299):
`normalizeProductCode(decodedText).trim().toUpperCase()`. -/
def scanCallbackCode (decodedText : List Char) : List Char :=
  (jsTrim (normalizeProductCode decodedText)).map Char.toUpper

/-- Modelled from the spec (§4.1 step order), for comparison with the
source's `normalizeProductCode`: trim; final path segment; strip
query/fragment; strip a trailing image-file extension; replace unicode
dashes; remove internal whitespace; uppercase. -/
def specNormalizeProductCode (input : List Char) : List Char :=
  let trimmed := jsTrim input
  let lastSegment := if trimmed.contains '/' then afterLastSlash trimmed else trimmed
  let clean := takeUntil '#' (takeUntil '?' lastSegment)
  (removeWs (dashReplace (stripImageExt clean))).map Char.toUpper

/-- Did an executor run end in a thrown error? -/
def isErrB (r : ExecResult) : Bool :=
  match r.result with
  | .error _ => true
  | .ok _ => false

/-- The cart operations an operator can drive during a batch session. -/
inductive CartOp where
  | add (codeRaw : List Char)
  | setQty (code : List Char) (qty : Option Int)
  | remove (code : List Char)
  | clear
deriving DecidableEq

/-- Dispatch one cart operation. -/
def applyCartOp (st : List CartLine) : CartOp → List CartLine
  | .add codeRaw => addToCart codeRaw st
  | .setQty code qty => updateCartQty code qty st
  | .remove code => removeFromCart code st
  | .clear => clearCart

/-- Run a session of cart operations from the empty cart. -/
def applyCartOps (ops : List CartOp) : List CartLine :=
  ops.foldl applyCartOp []

/-- The CartLine invariant of the spec: every quantity is at least one
and product codes are pairwise distinct. -/
def cartInv (st : List CartLine) : Prop :=
  (∀ l ∈ st, 1 ≤ l.qty) ∧ (st.map CartLine.product_code).Nodup

/-! ## Helper lemmas: characters -/

theorem uint32_le_iff_toNat {a b : UInt32} : a ≤ b ↔ a.toNat ≤ b.toNat := by
  rw [UInt32.le_def, BitVec.le_def]
  exact Iff.rfl

theorem char_le_iff_toNat {a b : Char} : a ≤ b ↔ a.toNat ≤ b.toNat := by
  show a.val ≤ b.val ↔ _
  exact uint32_le_iff_toNat

theorem char_toNat_ofNat {n : Nat} (h : n < 55296) : (Char.ofNat n).toNat = n := by
  have hv : n.isValidChar := Or.inl h
  unfold Char.ofNat
  rw [dif_pos hv]
  simp [Char.ofNatAux, Char.toNat, UInt32.toNat]

theorem isLower_iff {c : Char} : c.isLower = true ↔ 97 ≤ c.toNat ∧ c.toNat ≤ 122 := by
  have h97 : ((97 : UInt32) : UInt32).toNat = 97 := by decide
  have h122 : ((122 : UInt32) : UInt32).toNat = 122 := by decide
  unfold Char.isLower
  rw [Bool.and_eq_true, decide_eq_true_iff, decide_eq_true_iff]
  constructor
  · intro ⟨h1, h2⟩
    exact ⟨h97 ▸ uint32_le_iff_toNat.mp h1, h122 ▸ uint32_le_iff_toNat.mp h2⟩
  · intro ⟨h1, h2⟩
    exact ⟨uint32_le_iff_toNat.mpr (h97 ▸ h1), uint32_le_iff_toNat.mpr (h122 ▸ h2)⟩

theorem isLower_toUpper_false (c : Char) : (Char.toUpper c).isLower = false := by
  unfold Char.toUpper
  by_cases h : c.toNat ≥ 97 ∧ c.toNat ≤ 122
  · rw [if_pos h]
    have ht : (Char.ofNat (c.toNat - 32)).toNat = c.toNat - 32 := char_toNat_ofNat (by omega)
    rw [Bool.eq_false_iff]
    intro hl
    rw [isLower_iff, ht] at hl
    omega
  · rw [if_neg h]
    rw [Bool.eq_false_iff]
    intro hl
    rw [isLower_iff] at hl
    exact h ⟨hl.1, hl.2⟩

theorem toLower_eq_dot_iff (c : Char) : Char.toLower c = '.' ↔ c = '.' := by
  constructor
  · intro h
    unfold Char.toLower at h
    by_cases hc : c.toNat ≥ 65 ∧ c.toNat ≤ 90
    · rw [if_pos hc] at h
      have := congrArg Char.toNat h
      rw [char_toNat_ofNat (by omega)] at this
      have hdot : ('.' : Char).toNat = 46 := by decide
      rw [hdot] at this
      omega
    · rw [if_neg hc] at h
      exact h
  · intro h
    subst h
    decide

/-! ## Helper lemmas: lists and the normalizer -/

theorem dropWhile_eq_self_of {p : Char → Bool} {s : List Char}
    (h : ∀ c ∈ s, p c = false) : s.dropWhile p = s := by
  cases s with
  | nil => rfl
  | cons a rest => simp [List.dropWhile, h a (List.mem_cons_self a rest)]

theorem jsTrim_eq_self_of {s : List Char} (h : ∀ c ∈ s, jsIsSpace c = false) :
    jsTrim s = s := by
  unfold jsTrim jsTrimLeft jsTrimRight
  rw [dropWhile_eq_self_of h]
  rw [dropWhile_eq_self_of (fun c hc => h c (List.mem_reverse.mp hc))]
  exact s.reverse_reverse

theorem takeWhile_eq_self_of {p : Char → Bool} {s : List Char}
    (h : ∀ c ∈ s, p c = true) : s.takeWhile p = s :=
  List.takeWhile_eq_self_iff.mpr h

theorem takeWhile_append_stop {p : Char → Bool} {xs ys : List Char} {b : Char}
    (h : ∀ c ∈ xs, p c = true) (hb : p b = false) :
    (xs ++ b :: ys).takeWhile p = xs := by
  induction xs with
  | nil => simp [List.takeWhile, hb]
  | cons a rest ih =>
    simp only [List.cons_append, List.takeWhile]
    rw [h a (List.mem_cons_self a rest)]
    simp only [List.cons.injEq, true_and]
    exact ih (fun c hc => h c (List.mem_cons_of_mem a hc))

theorem afterLastSlash_append {xs ys : List Char} (h : ∀ c ∈ ys, c ≠ '/') :
    afterLastSlash (xs ++ '/' :: ys) = ys := by
  unfold afterLastSlash
  rw [List.reverse_append, List.reverse_cons, List.append_assoc, List.singleton_append]
  rw [takeWhile_append_stop
        (fun c hc => by simpa using h c (List.mem_reverse.mp hc))
        (by simp)]
  exact ys.reverse_reverse

theorem splitOnChar_ne_nil (d : Char) (s : List Char) : splitOnChar d s ≠ [] := by
  induction s with
  | nil => simp [splitOnChar]
  | cons a rest ih =>
    unfold splitOnChar
    by_cases had : a = d
    · simp [had]
    · rw [if_neg had]
      cases h : splitOnChar d rest with
      | nil => simp
      | cons seg segs => simp

theorem mem_splitOnChar {d : Char} {s : List Char} {c : Char} (hc : c ∈ s) :
    c = d ∨ ∃ seg ∈ splitOnChar d s, c ∈ seg := by
  induction s with
  | nil => cases hc
  | cons a rest ih =>
    unfold splitOnChar
    by_cases had : a = d
    · rw [if_pos had]
      rcases List.mem_cons.mp hc with hca | hcr
      · exact Or.inl (hca.trans had)
      · rcases ih hcr with hd | ⟨seg, hseg, hcseg⟩
        · exact Or.inl hd
        · exact Or.inr ⟨seg, List.mem_cons_of_mem _ hseg, hcseg⟩
    · rw [if_neg had]
      cases h : splitOnChar d rest with
      | nil => exact absurd h (splitOnChar_ne_nil d rest)
      | cons seg segs =>
        rcases List.mem_cons.mp hc with hca | hcr
        · exact Or.inr ⟨a :: seg, List.mem_cons_self _ _, hca ▸ List.mem_cons_self _ _⟩
        · rcases ih hcr with hd | ⟨sg, hsg, hcsg⟩
          · exact Or.inl hd
          · rcases List.mem_cons.mp (h ▸ hsg) with hseg | hsegs
            · exact Or.inr ⟨a :: seg, List.mem_cons_self _ _,
                List.mem_cons_of_mem a (hseg ▸ hcsg)⟩
            · exact Or.inr ⟨sg, List.mem_cons_of_mem _ hsegs, hcsg⟩

/-- Characters of a valid product code are alphanumeric or a hyphen. -/
theorem valid_code_chars {s : List Char} (hval : isValidProductCodeFormat s = true) :
    ∀ c ∈ s, isAlnum c = true ∨ c = '-' := by
  intro c hc
  unfold isValidProductCodeFormat at hval
  rw [Bool.and_eq_true, List.all_eq_true] at hval
  rcases mem_splitOnChar (d := '-') hc with hd | ⟨seg, hseg, hcseg⟩
  · exact Or.inr hd
  · have := hval.2 seg hseg
    rw [Bool.and_eq_true, Bool.and_eq_true, List.all_eq_true] at this
    exact Or.inl (this.2 c hcseg)

/-- Abbreviation for the character class of valid codes. -/
def cleanChar (c : Char) : Prop := isAlnum c = true ∨ c = '-'

theorem cleanChar_not_space {c : Char} (h : cleanChar c) : jsIsSpace c = false := by
  rcases h with h | h
  · unfold jsIsSpace
    rw [Bool.eq_false_iff]
    intro hs
    simp only [Bool.or_eq_true, decide_eq_true_iff] at hs
    rcases hs with ((((h1 | h1) | h1) | h1) | h1) | h1 <;> (subst h1; exact absurd h (by decide))
  · subst h; decide

theorem cleanChar_ne {c : Char} (h : cleanChar c) {d : Char}
    (hd : isAlnum d = false) (hd2 : d ≠ '-') : c ≠ d := by
  intro he
  subst he
  rcases h with h | h
  · rw [h] at hd; cases hd
  · exact hd2 h

theorem cleanChar_dashChar {c : Char} (h : cleanChar c) : dashChar c = c := by
  unfold dashChar
  rw [if_neg]
  rw [Bool.or_eq_true, Bool.or_eq_true]
  push_neg
  refine ⟨⟨?_, ?_⟩, ?_⟩ <;>
    (rw [Ne, decide_eq_true_iff]
     exact cleanChar_ne h (by decide) (by decide))

theorem cleanChar_toLower_ne_dot {c : Char} (h : cleanChar c) :
    Char.toLower c ≠ '.' := by
  intro hd
  have := (toLower_eq_dot_iff c).mp hd
  exact cleanChar_ne h (by decide) (by decide) this

/-- `stripImageExt` does not touch a string whose characters are all
alphanumeric or hyphens (no `'.'`, so no extension can match). -/
theorem stripImageExt_eq_self_of_clean {s : List Char}
    (h : ∀ c ∈ s, cleanChar c) : stripImageExt s = s := by
  have hno : ∀ suf : List Char, '.' ∈ suf → endsWithCI suf s = false := by
    intro suf hdot
    unfold endsWithCI
    rw [Bool.eq_false_iff]
    intro hpre
    have hsub : suf.reverse <+: (s.map Char.toLower).reverse :=
      List.isPrefixOf_iff_prefix.mp hpre
    have hmem : '.' ∈ (s.map Char.toLower).reverse :=
      hsub.subset (List.mem_reverse.mpr hdot)
    rw [List.mem_reverse, List.mem_map] at hmem
    obtain ⟨c, hcs, hc⟩ := hmem
    exact cleanChar_toLower_ne_dot (h c hcs) hc
  unfold stripImageExt
  rw [hno _ (by decide), hno _ (by decide), hno _ (by decide), hno _ (by decide)]
  simp

theorem contains_eq_false_of {s : List Char} {d : Char} (h : ∀ c ∈ s, c ≠ d) :
    s.contains d = false := by
  rw [Bool.eq_false_iff]
  intro hc
  obtain ⟨x, hx, hbeq⟩ := List.contains_iff_exists_mem_beq.mp hc
  exact h x hx (eq_of_beq hbeq).symm

theorem contains_eq_true_of {s : List Char} {d : Char} (h : d ∈ s) :
    s.contains d = true :=
  List.contains_iff_exists_mem_beq.mpr ⟨d, h, beq_self_eq_true d⟩

theorem map_eq_self_of {f : Char → Char} {s : List Char} (h : ∀ c ∈ s, f c = c) :
    s.map f = s := by
  induction s with
  | nil => rfl
  | cons a rest ih =>
    rw [List.map_cons, h a (List.mem_cons_self a rest),
        ih (fun c hc => h c (List.mem_cons_of_mem a hc))]

theorem takeWhile_append_all {p : Char → Bool} {xs ys : List Char}
    (h : ∀ c ∈ xs, p c = true) : (xs ++ ys).takeWhile p = xs ++ ys.takeWhile p := by
  induction xs with
  | nil => rfl
  | cons a rest ih =>
    simp only [List.cons_append, List.takeWhile]
    rw [h a (List.mem_cons_self a rest)]
    simp only [List.cons.injEq, true_and]
    exact ih (fun c hc => h c (List.mem_cons_of_mem a hc))

/-- Unfolded form of `normalizeProductCode` (its `let` chain). -/
theorem normalizeProductCode_def (s : List Char) :
    normalizeProductCode s =
      stripImageExt (removeWs (dashReplace (takeUntil '#' (takeUntil '?'
        (if (jsTrim s).contains '/' then afterLastSlash (jsTrim s) else jsTrim s))))) := rfl

/-- The normalizer is the identity on strings of alphanumerics and
hyphens — in particular on every valid product code. -/
theorem normalizeProductCode_clean {c : List Char} (h : ∀ ch ∈ c, cleanChar ch) :
    normalizeProductCode c = c := by
  rw [normalizeProductCode_def]
  rw [jsTrim_eq_self_of (fun ch hch => cleanChar_not_space (h ch hch))]
  rw [if_neg (by rw [contains_eq_false_of
        (fun ch hch => cleanChar_ne (h ch hch) (by decide) (by decide))]; simp)]
  unfold takeUntil
  have h1 : List.takeWhile (fun ch => decide (ch ≠ '?')) c = c :=
    takeWhile_eq_self_of (fun ch hch => by
      simpa using cleanChar_ne (h ch hch) (by decide) (by decide))
  rw [h1]
  have h2 : List.takeWhile (fun ch => decide (ch ≠ '#')) c = c :=
    takeWhile_eq_self_of (fun ch hch => by
      simpa using cleanChar_ne (h ch hch) (by decide) (by decide))
  rw [h2]
  unfold dashReplace
  rw [map_eq_self_of (fun ch hch => cleanChar_dashChar (h ch hch))]
  unfold removeWs
  rw [List.filter_eq_self.mpr (fun ch hch => by
        simp [cleanChar_not_space (h ch hch)])]
  exact stripImageExt_eq_self_of_clean h

/-- The dash/whitespace/extension tail of the pipeline is the identity on
clean strings. -/
theorem normTail_clean {c : List Char} (h : ∀ ch ∈ c, cleanChar ch) :
    stripImageExt (removeWs (dashReplace c)) = c := by
  unfold dashReplace
  rw [map_eq_self_of (fun ch hch => cleanChar_dashChar (h ch hch))]
  unfold removeWs
  rw [List.filter_eq_self.mpr (fun ch hch => by
        simp [cleanChar_not_space (h ch hch)])]
  exact stripImageExt_eq_self_of_clean h

/-- The query/fragment/dash/whitespace/extension pipeline is the identity
on clean strings. -/
theorem normCore_clean {c : List Char} (h : ∀ ch ∈ c, cleanChar ch) :
    stripImageExt (removeWs (dashReplace (takeUntil '#' (takeUntil '?' c)))) = c := by
  unfold takeUntil
  have h1 : List.takeWhile (fun ch => decide (ch ≠ '?')) c = c :=
    takeWhile_eq_self_of (fun ch hch => by
      simpa using cleanChar_ne (h ch hch) (by decide) (by decide))
  rw [h1]
  have h2 : List.takeWhile (fun ch => decide (ch ≠ '#')) c = c :=
    takeWhile_eq_self_of (fun ch hch => by
      simpa using cleanChar_ne (h ch hch) (by decide) (by decide))
  rw [h2]
  exact normTail_clean h

/-- The query/fragment cut on a clean code followed by `'?'` and
arbitrary query text recovers the code. -/
theorem normCoreQ {c q : List Char} (hc : ∀ ch ∈ c, cleanChar ch) :
    stripImageExt (removeWs (dashReplace (takeUntil '#' (takeUntil '?' (c ++ '?' :: q))))) = c := by
  unfold takeUntil
  have h1 : List.takeWhile (fun ch => decide (ch ≠ '?')) (c ++ '?' :: q) = c :=
    takeWhile_append_stop
      (fun ch hch => by simpa using cleanChar_ne (hc ch hch) (by decide) (by decide))
      (by decide)
  rw [h1]
  have h2 : List.takeWhile (fun ch => decide (ch ≠ '#')) c = c :=
    takeWhile_eq_self_of (fun ch hch => by
      simpa using cleanChar_ne (hc ch hch) (by decide) (by decide))
  rw [h2]
  exact normTail_clean hc

theorem isPrefixOf_append_eq_false {a b : List Char} (Y : List Char)
    (h1 : ¬ a <+: b) (h2 : ¬ b <+: a) : a.isPrefixOf (b ++ Y) = false := by
  rw [Bool.eq_false_iff]
  intro h
  have hp : a <+: b ++ Y := List.isPrefixOf_iff_prefix.mp h
  rcases List.prefix_or_prefix_of_prefix hp (List.prefix_append b Y) with hab | hba
  · exact h1 hab
  · exact h2 hba

theorem isPrefixOf_append_self (a Y : List Char) : a.isPrefixOf (a ++ Y) = true :=
  List.isPrefixOf_iff_prefix.mpr (List.prefix_append a Y)

/-- Appending one of the four image extensions to any string and
stripping extensions recovers the string (the mismatch between distinct
extensions is decided inside the appended part). -/
theorem stripImageExt_append_ext {c : List Char} {e : List Char}
    (he : e = strL ".png" ∨ e = strL ".jpg" ∨ e = strL ".jpeg" ∨ e = strL ".webp") :
    stripImageExt (c ++ e) = c := by
  have hrev : ∀ suf : List Char,
      endsWithCI suf (c ++ e) =
        suf.reverse.isPrefixOf ((e.map Char.toLower).reverse ++ (c.map Char.toLower).reverse) := by
    intro suf
    unfold endsWithCI
    rw [List.map_append, List.reverse_append]
  have hlen : stripImageExt (c ++ e) =
      if endsWithCI (strL ".png") (c ++ e) then (c ++ e).take ((c ++ e).length - 4)
      else if endsWithCI (strL ".jpg") (c ++ e) then (c ++ e).take ((c ++ e).length - 4)
      else if endsWithCI (strL ".jpeg") (c ++ e) then (c ++ e).take ((c ++ e).length - 5)
      else if endsWithCI (strL ".webp") (c ++ e) then (c ++ e).take ((c ++ e).length - 5)
      else c ++ e := rfl
  rcases he with he | he | he | he <;> subst he <;>
    rw [hlen] <;>
    simp only [hrev, show ((strL ".png").map Char.toLower) = strL ".png" from by decide,
      show ((strL ".jpg").map Char.toLower) = strL ".jpg" from by decide,
      show ((strL ".jpeg").map Char.toLower) = strL ".jpeg" from by decide,
      show ((strL ".webp").map Char.toLower) = strL ".webp" from by decide]
  · rw [isPrefixOf_append_self]
    simp only [if_true]
    exact List.take_left' (by simp [List.length_append]; rfl)
  · rw [isPrefixOf_append_eq_false _ (by decide) (by decide),
        isPrefixOf_append_self]
    simp only [Bool.false_eq_true, if_false, if_true]
    exact List.take_left' (by simp [List.length_append]; rfl)
  · rw [isPrefixOf_append_eq_false _ (by decide) (by decide),
        isPrefixOf_append_eq_false _ (by decide) (by decide),
        isPrefixOf_append_self]
    simp only [Bool.false_eq_true, if_false, if_true]
    exact List.take_left' (by simp [List.length_append]; rfl)
  · rw [isPrefixOf_append_eq_false _ (by decide) (by decide),
        isPrefixOf_append_eq_false _ (by decide) (by decide),
        isPrefixOf_append_eq_false _ (by decide) (by decide),
        isPrefixOf_append_self]
    simp only [Bool.false_eq_true, if_false, if_true]
    exact List.take_left' (by simp [List.length_append]; rfl)

/-- On input with no whitespace, no path separator, no query/fragment
marker and no unicode dash, the normalizer only performs the
extension-stripping step. -/
theorem normalize_no_specials {s : List Char}
    (h : ∀ ch ∈ s, jsIsSpace ch = false ∧ ch ≠ '/' ∧ ch ≠ '?' ∧ ch ≠ '#' ∧ dashChar ch = ch) :
    normalizeProductCode s = stripImageExt s := by
  rw [normalizeProductCode_def]
  rw [jsTrim_eq_self_of (fun ch hch => (h ch hch).1)]
  rw [if_neg (by rw [contains_eq_false_of (fun ch hch => (h ch hch).2.1)]; simp)]
  unfold takeUntil
  have h1 : List.takeWhile (fun ch => decide (ch ≠ '?')) s = s :=
    takeWhile_eq_self_of (fun ch hch => by simpa using (h ch hch).2.2.1)
  rw [h1]
  have h2 : List.takeWhile (fun ch => decide (ch ≠ '#')) s = s :=
    takeWhile_eq_self_of (fun ch hch => by simpa using (h ch hch).2.2.2.1)
  rw [h2]
  unfold dashReplace
  rw [map_eq_self_of (fun ch hch => (h ch hch).2.2.2.2)]
  unfold removeWs
  rw [List.filter_eq_self.mpr (fun ch hch => by simp [(h ch hch).1])]

/-- Characters of the four extension strings trip none of the earlier
normalization steps. -/
theorem ext_chars_tame {e : List Char}
    (he : e = strL ".png" ∨ e = strL ".jpg" ∨ e = strL ".jpeg" ∨ e = strL ".webp") :
    ∀ ch ∈ e, jsIsSpace ch = false ∧ ch ≠ '/' ∧ ch ≠ '?' ∧ ch ≠ '#' ∧ dashChar ch = ch := by
  rcases he with he | he | he | he <;> subst he <;> decide

theorem cleanChar_tame {c : Char} (h : cleanChar c) :
    jsIsSpace c = false ∧ c ≠ '/' ∧ c ≠ '?' ∧ c ≠ '#' ∧ dashChar c = c :=
  ⟨cleanChar_not_space h, cleanChar_ne h (by decide) (by decide),
   cleanChar_ne h (by decide) (by decide), cleanChar_ne h (by decide) (by decide),
   cleanChar_dashChar h⟩

/-- Appending an image extension to a clean code normalizes to the code. -/
theorem normalizeProductCode_ext {c e : List Char} (hc : ∀ ch ∈ c, cleanChar ch)
    (he : e = strL ".png" ∨ e = strL ".jpg" ∨ e = strL ".jpeg" ∨ e = strL ".webp") :
    normalizeProductCode (c ++ e) = c := by
  rw [normalize_no_specials (fun ch hch => by
        rcases List.mem_append.mp hch with hch | hch
        · exact cleanChar_tame (hc ch hch)
        · exact ext_chars_tame he ch hch)]
  exact stripImageExt_append_ext he

/-- Appending `'?'` and query text to a clean code normalizes to the code. -/
theorem normalizeProductCode_query {c q : List Char} (hc : ∀ ch ∈ c, cleanChar ch)
    (hq : ∀ ch ∈ q, jsIsSpace ch = false ∧ ch ≠ '/') :
    normalizeProductCode (c ++ '?' :: q) = c := by
  rw [normalizeProductCode_def]
  rw [jsTrim_eq_self_of (fun ch hch => by
        rcases List.mem_append.mp hch with hch | hch
        · exact cleanChar_not_space (hc ch hch)
        · rcases List.mem_cons.mp hch with hch | hch
          · subst hch; decide
          · exact (hq ch hch).1)]
  rw [if_neg (by
        rw [contains_eq_false_of (fun ch hch => by
          rcases List.mem_append.mp hch with hch | hch
          · exact cleanChar_ne (hc ch hch) (by decide) (by decide)
          · rcases List.mem_cons.mp hch with hch | hch
            · subst hch; decide
            · exact (hq ch hch).2)]
        simp)]
  exact normCoreQ hc

/-- Appending `'#'` and fragment text to a clean code normalizes to the code. -/
theorem normalizeProductCode_fragment {c f : List Char} (hc : ∀ ch ∈ c, cleanChar ch)
    (hf : ∀ ch ∈ f, jsIsSpace ch = false ∧ ch ≠ '/') :
    normalizeProductCode (c ++ '#' :: f) = c := by
  rw [normalizeProductCode_def]
  rw [jsTrim_eq_self_of (fun ch hch => by
        rcases List.mem_append.mp hch with hch | hch
        · exact cleanChar_not_space (hc ch hch)
        · rcases List.mem_cons.mp hch with hch | hch
          · subst hch; decide
          · exact (hf ch hch).1)]
  rw [if_neg (by
        rw [contains_eq_false_of (fun ch hch => by
          rcases List.mem_append.mp hch with hch | hch
          · exact cleanChar_ne (hc ch hch) (by decide) (by decide)
          · rcases List.mem_cons.mp hch with hch | hch
            · subst hch; decide
            · exact (hf ch hch).2)]
        simp)]
  unfold takeUntil
  rw [takeWhile_append_all (p := fun ch => decide (ch ≠ '?'))
        (fun ch hch => by simpa using cleanChar_ne (hc ch hch) (by decide) (by decide))]
  have hhash : List.takeWhile (fun ch => decide (ch ≠ '?')) ('#' :: f) =
      '#' :: List.takeWhile (fun ch => decide (ch ≠ '?')) f := by
    simp [List.takeWhile]
  rw [hhash]
  rw [takeWhile_append_stop (p := fun ch => decide (ch ≠ '#'))
        (fun ch hch => by simpa using cleanChar_ne (hc ch hch) (by decide) (by decide))
        (by decide)]
  exact normTail_clean hc

/-- A clean code embedded as the last path segment of a URL normalizes
to the code. -/
theorem normalizeProductCode_url {p c : List Char} (hp : ∀ ch ∈ p, jsIsSpace ch = false)
    (hc : ∀ ch ∈ c, cleanChar ch) :
    normalizeProductCode (p ++ '/' :: c) = c := by
  rw [normalizeProductCode_def]
  rw [jsTrim_eq_self_of (fun ch hch => by
        rcases List.mem_append.mp hch with hch | hch
        · exact hp ch hch
        · rcases List.mem_cons.mp hch with hch | hch
          · subst hch; decide
          · exact cleanChar_not_space (hc ch hch))]
  rw [if_pos (by
        rw [contains_eq_true_of (List.mem_append.mpr
          (Or.inr (List.mem_cons_self _ _)))])]
  rw [afterLastSlash_append (fun ch hch =>
        cleanChar_ne (hc ch hch) (by decide) (by decide))]
  exact normCore_clean hc

/-- A clean code embedded as the last path segment of a URL with a query
string normalizes to the code. -/
theorem normalizeProductCode_url_query {p c q : List Char}
    (hp : ∀ ch ∈ p, jsIsSpace ch = false)
    (hc : ∀ ch ∈ c, cleanChar ch)
    (hq : ∀ ch ∈ q, jsIsSpace ch = false ∧ ch ≠ '/') :
    normalizeProductCode (p ++ '/' :: (c ++ '?' :: q)) = c := by
  rw [normalizeProductCode_def]
  rw [jsTrim_eq_self_of (fun ch hch => by
        rcases List.mem_append.mp hch with hch | hch
        · exact hp ch hch
        · rcases List.mem_cons.mp hch with hch | hch
          · subst hch; decide
          · rcases List.mem_append.mp hch with hch | hch
            · exact cleanChar_not_space (hc ch hch)
            · rcases List.mem_cons.mp hch with hch | hch
              · subst hch; decide
              · exact (hq ch hch).1)]
  rw [if_pos (by
        rw [contains_eq_true_of (List.mem_append.mpr
          (Or.inr (List.mem_cons_self _ _)))])]
  rw [afterLastSlash_append (fun ch hch => by
        rcases List.mem_append.mp hch with hch | hch
        · exact cleanChar_ne (hc ch hch) (by decide) (by decide)
        · rcases List.mem_cons.mp hch with hch | hch
          · subst hch; decide
          · exact (hq ch hch).2)]
  exact normCoreQ hc

/-- A trailing slash after a clean code yields the EMPTY string: the last
path segment of `"C/"` is `""`. -/
theorem normalizeProductCode_trailing_slash {c : List Char}
    (hc : ∀ ch ∈ c, cleanChar ch) :
    normalizeProductCode (c ++ ['/']) = [] := by
  rw [normalizeProductCode_def]
  rw [jsTrim_eq_self_of (fun ch hch => by
        rcases List.mem_append.mp hch with hch | hch
        · exact cleanChar_not_space (hc ch hch)
        · rcases List.mem_cons.mp hch with hch | hch
          · subst hch; decide
          · cases hch)]
  rw [if_pos (by
        rw [contains_eq_true_of (List.mem_append.mpr
          (Or.inr (List.mem_cons_self _ _)))])]
  rw [show (c ++ ['/'] : List Char) = c ++ '/' :: [] from rfl]
  rw [afterLastSlash_append (fun ch hch => by cases hch)]
  decide

/-- Valid product codes consist of clean characters. -/
theorem valid_code_clean {s : List Char} (hval : isValidProductCodeFormat s = true) :
    ∀ c ∈ s, cleanChar c :=
  valid_code_chars hval

/-! ## Helper lemmas: batch submit and cart -/

theorem collectFailed_map_fst (exec : CartLine → ExecResult) (l : List CartLine) :
    (collectFailed exec l).map Prod.fst = l.filter (fun line => isErrB (exec line)) := by
  induction l with
  | nil => rfl
  | cons line rest ih =>
    unfold collectFailed
    cases h : (exec line).result with
    | error e => simp [List.filter_cons, isErrB, h, ih]
    | ok u => simp [List.filter_cons, isErrB, h, ih]

theorem runBatch_attempted (exec : CartLine → ExecResult)
    (activeCode invProductCode : Option (List Char))
    (globalResp : List Char → Except (List Char) (Option Int))
    (locResp : List Char → Except (List Char) (List LocRow)) (cart : List CartLine) :
    (runBatch exec activeCode invProductCode globalResp locResp cart).attempted = cart := by
  by_cases hf : collectFailed exec cart = []
  · rcases hpc : jsTruthyStr (jsOrStr activeCode invProductCode) with _ | pc
    · simp [runBatch, hf, hpc]
    · rcases hg : refreshOnHandGlobal (globalResp pc) with msg | v
      · simp [runBatch, hf, hpc, hg]
      · rcases hl : refreshLocBalances (locResp pc) with msg | bals <;>
          simp [runBatch, hf, hpc, hg, hl]
  · simp [runBatch, hf]

theorem runBatch_newCart_some_failed (exec : CartLine → ExecResult)
    (activeCode invProductCode : Option (List Char))
    (globalResp : List Char → Except (List Char) (Option Int))
    (locResp : List Char → Except (List Char) (List LocRow)) (cart : List CartLine)
    (hf : collectFailed exec cart ≠ []) :
    (runBatch exec activeCode invProductCode globalResp locResp cart).newCart
      = cart.filter (fun line => isErrB (exec line)) := by
  rw [← collectFailed_map_fst]
  simp only [runBatch, hf, if_false]

theorem runBatch_success_nopreview (exec : CartLine → ExecResult)
    (activeCode invProductCode : Option (List Char))
    (globalResp : List Char → Except (List Char) (Option Int))
    (locResp : List Char → Except (List Char) (List LocRow)) (cart : List CartLine)
    (hf : collectFailed exec cart = [])
    (hpc : jsTruthyStr (jsOrStr activeCode invProductCode) = none) :
    runBatch exec activeCode invProductCode globalResp locResp cart
      = ⟨cart, none, [], true, none, none⟩ := by
  simp [runBatch, hf, hpc, clearCart]

theorem runBatch_success_refresh_ok (exec : CartLine → ExecResult)
    (activeCode invProductCode : Option (List Char))
    (globalResp : List Char → Except (List Char) (Option Int))
    (locResp : List Char → Except (List Char) (List LocRow)) (cart : List CartLine)
    (pc : List Char) (v : Int) (bals : List LocBalance)
    (hf : collectFailed exec cart = [])
    (hpc : jsTruthyStr (jsOrStr activeCode invProductCode) = some pc)
    (hg : refreshOnHandGlobal (globalResp pc) = .ok v)
    (hl : refreshLocBalances (locResp pc) = .ok bals) :
    runBatch exec activeCode invProductCode globalResp locResp cart
      = ⟨cart, none, [], true, some v, some bals⟩ := by
  simp [runBatch, hf, hpc, hg, hl, clearCart]

theorem runBatch_global_refresh_fails (exec : CartLine → ExecResult)
    (activeCode invProductCode : Option (List Char))
    (globalResp : List Char → Except (List Char) (Option Int))
    (locResp : List Char → Except (List Char) (List LocRow)) (cart : List CartLine)
    (pc : List Char) (msg : List Char)
    (hf : collectFailed exec cart = [])
    (hpc : jsTruthyStr (jsOrStr activeCode invProductCode) = some pc)
    (hg : refreshOnHandGlobal (globalResp pc) = .error msg) :
    runBatch exec activeCode invProductCode globalResp locResp cart
      = ⟨cart, some (.batchFailed msg), cart, false, none, none⟩ := by
  simp [runBatch, hf, hpc, hg]

theorem runBatch_loc_refresh_fails (exec : CartLine → ExecResult)
    (activeCode invProductCode : Option (List Char))
    (globalResp : List Char → Except (List Char) (Option Int))
    (locResp : List Char → Except (List Char) (List LocRow)) (cart : List CartLine)
    (pc : List Char) (v : Int) (msg : List Char)
    (hf : collectFailed exec cart = [])
    (hpc : jsTruthyStr (jsOrStr activeCode invProductCode) = some pc)
    (hg : refreshOnHandGlobal (globalResp pc) = .ok v)
    (hl : refreshLocBalances (locResp pc) = .error msg) :
    runBatch exec activeCode invProductCode globalResp locResp cart
      = ⟨cart, some (.batchFailed msg), cart, false, some v, none⟩ := by
  simp [runBatch, hf, hpc, hg, hl]

theorem collectFailed_eq_nil_iff (exec : CartLine → ExecResult) (cart : List CartLine) :
    collectFailed exec cart = [] ↔ cart.filter (fun line => isErrB (exec line)) = [] := by
  constructor
  · intro h
    rw [← collectFailed_map_fst, h]
    rfl
  · intro h
    have h2 := collectFailed_map_fst exec cart
    rw [h] at h2
    exact List.map_eq_nil_iff.mp h2

theorem jsClampQty_ge_one (q : Option Int) : 1 ≤ jsClampQty q := by
  cases q with
  | none => decide
  | some v => exact le_max_left 1 _

theorem bumpFirst_codes (code : List Char) (st : List CartLine) :
    (bumpFirst code st).map CartLine.product_code = st.map CartLine.product_code := by
  induction st with
  | nil => rfl
  | cons x xs ih =>
    unfold bumpFirst
    by_cases h : x.product_code = code
    · rw [if_pos h]
      rfl
    · rw [if_neg h]
      simp [ih]

theorem mem_bumpFirst {l : CartLine} {code : List Char} {st : List CartLine}
    (h : l ∈ bumpFirst code st) :
    l ∈ st ∨ ∃ x ∈ st, l = { x with qty := x.qty + 1 } := by
  induction st with
  | nil => cases h
  | cons x xs ih =>
    unfold bumpFirst at h
    by_cases hx : x.product_code = code
    · rw [if_pos hx] at h
      rcases List.mem_cons.mp h with h | h
      · exact Or.inr ⟨x, List.mem_cons_self x xs, h⟩
      · exact Or.inl (List.mem_cons_of_mem x h)
    · rw [if_neg hx] at h
      rcases List.mem_cons.mp h with h | h
      · exact Or.inl (h ▸ List.mem_cons_self x xs)
      · rcases ih h with h | ⟨y, hy, he⟩
        · exact Or.inl (List.mem_cons_of_mem x h)
        · exact Or.inr ⟨y, List.mem_cons_of_mem x hy, he⟩

theorem codes_map_preserve {g : CartLine → CartLine}
    (hg : ∀ x, (g x).product_code = x.product_code) (st : List CartLine) :
    (st.map g).map CartLine.product_code = st.map CartLine.product_code := by
  induction st with
  | nil => rfl
  | cons x xs ih => simp [hg, ih]

theorem updateCartQty_codes (code : List Char) (qty : Option Int) (st : List CartLine) :
    (updateCartQty code qty st).map CartLine.product_code = st.map CartLine.product_code := by
  unfold updateCartQty
  exact codes_map_preserve
    (fun x => by by_cases h : x.product_code = code <;> simp [h]) st

theorem mem_updateCartQty {l : CartLine} {code : List Char} {qty : Option Int}
    {st : List CartLine} (h : l ∈ updateCartQty code qty st) :
    l ∈ st ∨ l.qty = jsClampQty qty := by
  unfold updateCartQty at h
  obtain ⟨x, hx, he⟩ := List.mem_map.mp h
  by_cases hc : x.product_code = code
  · rw [if_pos hc] at he
    right
    rw [← he]
  · rw [if_neg hc] at he
    exact Or.inl (he ▸ hx)

theorem cartInv_addToCart (codeRaw : List Char) {st : List CartLine} (h : cartInv st) :
    cartInv (addToCart codeRaw st) := by
  unfold addToCart
  by_cases h0 : canonCode codeRaw = []
  · rw [if_pos h0]; exact h
  · rw [if_neg h0]
    by_cases h1 : st.any (fun x => x.product_code == canonCode codeRaw)
    · rw [if_pos h1]
      refine ⟨?_, ?_⟩
      · intro l hl
        rcases mem_bumpFirst hl with hl | ⟨x, hx, he⟩
        · exact h.1 l hl
        · subst he
          have := h.1 x hx
          simp only
          omega
      · rw [bumpFirst_codes]
        exact h.2
    · rw [if_neg h1]
      refine ⟨?_, ?_⟩
      · intro l hl
        rcases List.mem_cons.mp hl with hl | hl
        · subst hl
          exact le_refl 1
        · exact h.1 l hl
      · rw [List.map_cons]
        refine List.nodup_cons.mpr ⟨?_, h.2⟩
        intro hmem
        obtain ⟨x, hx, he⟩ := List.mem_map.mp hmem
        apply h1
        rw [List.any_eq_true]
        exact ⟨x, hx, by simp [he]⟩

theorem cartInv_updateCartQty (code : List Char) (qty : Option Int)
    {st : List CartLine} (h : cartInv st) : cartInv (updateCartQty code qty st) := by
  refine ⟨?_, ?_⟩
  · intro l hl
    rcases mem_updateCartQty hl with hl | hl
    · exact h.1 l hl
    · rw [hl]
      exact jsClampQty_ge_one qty
  · rw [updateCartQty_codes]
    exact h.2

theorem cartInv_removeFromCart (code : List Char) {st : List CartLine} (h : cartInv st) :
    cartInv (removeFromCart code st) := by
  refine ⟨?_, ?_⟩
  · intro l hl
    exact h.1 l (List.mem_of_mem_filter hl)
  · exact ((List.filter_sublist st).map CartLine.product_code).nodup h.2

theorem cartInv_applyCartOp {st : List CartLine} (h : cartInv st) (op : CartOp) :
    cartInv (applyCartOp st op) := by
  cases op with
  | add codeRaw => exact cartInv_addToCart codeRaw h
  | setQty code qty => exact cartInv_updateCartQty code qty h
  | remove code => exact cartInv_removeFromCart code h
  | clear => exact ⟨fun l hl => absurd hl (List.not_mem_nil l), List.nodup_nil⟩

theorem cartInv_foldl (ops : List CartOp) :
    ∀ st, cartInv st → cartInv (ops.foldl applyCartOp st) := by
  induction ops with
  | nil => intro st h; exact h
  | cons op rest ih =>
    intro st h
    exact ih _ (cartInv_applyCartOp h op)

/-! ## Claim theorems -/

theorem jsClampQty_of_pos {q : Int} (h : 1 ≤ q) : jsClampQty (some q) = q := by
  show max 1 (if q = 0 then 1 else q) = q
  rw [if_neg (by omega)]
  exact max_eq_right h

/-- C8: the scan debouncer suppresses a decode event exactly when its
code equals the last accepted code and the elapsed time is strictly below
900 ms; only accepted events update the stored `{code, ts}`; the same
code 899 ms later is suppressed, 901 ms later accepted, and a different
code is always accepted. -/
theorem scanDebounce_spec :
    (∀ last code now,
      ((scanDebounce last code now).1 = false ↔ (last.code = code ∧ now - last.ts < 900))
      ∧ ((scanDebounce last code now).1 = false → (scanDebounce last code now).2 = last)
      ∧ ((scanDebounce last code now).1 = true → (scanDebounce last code now).2 = ⟨code, now⟩))
    ∧ (∀ code t, (scanDebounce ⟨code, t⟩ code (t + 899)).1 = false)
    ∧ (∀ code t, (scanDebounce ⟨code, t⟩ code (t + 901)).1 = true)
    ∧ (∀ last code now, code ≠ last.code → (scanDebounce last code now).1 = true) := by
  refine ⟨?_, ?_, ?_, ?_⟩
  · intro last code now
    unfold scanDebounce
    by_cases h : last.code = code ∧ now - last.ts < 900
    · rw [if_pos h]
      exact ⟨⟨fun _ => h, fun _ => rfl⟩, fun _ => rfl, fun hc => by simp at hc⟩
    · rw [if_neg h]
      exact ⟨⟨fun hc => by simp at hc, fun hand => absurd hand h⟩,
             fun hc => by simp at hc, fun _ => rfl⟩
  · intro code t
    unfold scanDebounce
    rw [if_pos ⟨rfl, show t + 899 - t < 900 by omega⟩]
  · intro code t
    unfold scanDebounce
    rw [if_neg (fun hand => absurd hand.2 (show ¬(t + 901 - t < 900) by omega))]
  · intro last code now hne
    unfold scanDebounce
    rw [if_neg (fun hand => hne hand.1.symm)]

theorem scanDebounce_spec_witness :
    (scanDebounce ⟨strL "RB-10-02-16", 1000⟩ (strL "RB-10-02-16") (1000 + 899)).1 = false
    ∧ (scanDebounce ⟨strL "RB-10-02-16", 1000⟩ (strL "RB-10-02-16") (1000 + 901)).1 = true
    ∧ (scanDebounce ⟨strL "RB-10-02-16", 1000⟩ (strL "AA-10-02-16") 1001).1 = true :=
  ⟨scanDebounce_spec.2.1 _ 1000, scanDebounce_spec.2.2.1 _ 1000,
   scanDebounce_spec.2.2.2 _ _ _ (by decide)⟩

/-- C2: for every transfer whose debit leg succeeds and whose credit leg
fails, the engine surfaces the credit-leg failure (the
`NonAtomicTransferFailure` of the spec: the throw after `transfer_in`)
and issues exactly the two leg RPCs — there is no compensating credit. -/
theorem transfer_nonatomic_no_compensation
    (invNote : List Char) (locBalances : List LocBalance)
    (store : RpcCall → Option (List Char)) (productCode : List Char) (qty : Option Int)
    (fromLoc toLoc : List Char) (msg : List Char)
    (hcode : canonCode productCode ≠ []) (hfrom : fromLoc ≠ []) (hto : toLoc ≠ [])
    (hne : fromLoc ≠ toLoc)
    (hstock : jsClampQty qty ≤ getOnHandAt locBalances fromLoc)
    (hdebit : store (transferOutCall (canonCode productCode) fromLoc (jsClampQty qty) invNote) = none)
    (hcredit : store (transferInCall (canonCode productCode) toLoc (jsClampQty qty) invNote) = some msg) :
    transferSingleLine invNote locBalances store productCode qty fromLoc toLoc =
      ⟨[transferOutCall (canonCode productCode) fromLoc (jsClampQty qty) invNote,
        transferInCall (canonCode productCode) toLoc (jsClampQty qty) invNote],
       .error (.transferInError msg)⟩ := by
  simp only [transferSingleLine]
  rw [if_neg hcode]
  rw [if_neg (by simp [hfrom, hto])]
  rw [if_neg hne]
  rw [if_neg (by omega)]
  simp only [hdebit, hcredit]

theorem transfer_nonatomic_no_compensation_witness :
    transferSingleLine [] [⟨strL "L1", 5, none⟩]
      (fun c => if c.p_reason = strL "transfer_in" then some (strL "boom") else none)
      (strL "RB-10-02-16") (some 5) (strL "L1") (strL "L2") =
      ⟨[transferOutCall (strL "RB-10-02-16") (strL "L1") 5 [],
        transferInCall (strL "RB-10-02-16") (strL "L2") 5 []],
       .error (.transferInError (strL "boom"))⟩ := by
  have h := transfer_nonatomic_no_compensation [] [⟨strL "L1", 5, none⟩]
    (fun c => if c.p_reason = strL "transfer_in" then some (strL "boom") else none)
    (strL "RB-10-02-16") (some 5) (strL "L1") (strL "L2") (strL "boom")
    (by decide) (by decide) (by decide) (by decide) (by decide) (by decide) (by decide)
  exact h.trans (by decide)

/-- C1: for a send or transfer request with quantity `qty ≥ 1` (the
domain the submit wrappers and the cart guarantee) against cached
on-hand `h` at the from-location: if `qty > h` the executor throws the
insufficient-stock error and issues no RPC at all; if `qty ≤ h` the
debit RPC with delta `-qty` at the from-location is issued (first, for a
transfer). -/
theorem send_transfer_insufficient_guard
    (invNote : List Char) (locBalances : List LocBalance)
    (store : RpcCall → Option (List Char)) (productCode fromLoc toLoc : List Char)
    (qty h : Int)
    (hcode : canonCode productCode ≠ []) (hfrom : fromLoc ≠ [])
    (hq : 1 ≤ qty) (hbal : getOnHandAt locBalances fromLoc = h) :
    (qty > h →
      sendSingleLine invNote locBalances store productCode (some qty) fromLoc
        = ⟨[], .error (.insufficientStock h qty)⟩
      ∧ (toLoc ≠ [] → fromLoc ≠ toLoc →
        transferSingleLine invNote locBalances store productCode (some qty) fromLoc toLoc
          = ⟨[], .error (.insufficientStockTransfer h qty)⟩))
    ∧ (qty ≤ h →
      (sendSingleLine invNote locBalances store productCode (some qty) fromLoc).calls
        = [sendCall (canonCode productCode) fromLoc qty invNote]
      ∧ (toLoc ≠ [] → fromLoc ≠ toLoc →
        (transferSingleLine invNote locBalances store productCode (some qty) fromLoc toLoc).calls.head?
          = some (transferOutCall (canonCode productCode) fromLoc qty invNote))) := by
  constructor
  · intro hgt
    constructor
    · simp only [sendSingleLine]
      rw [if_neg hcode, if_neg hfrom, jsClampQty_of_pos hq, hbal, if_pos hgt]
    · intro hto hne
      simp only [transferSingleLine]
      rw [if_neg hcode]
      rw [if_neg (by simp [hfrom, hto])]
      rw [if_neg hne]
      rw [jsClampQty_of_pos hq, hbal, if_pos hgt]
  · intro hle
    constructor
    · simp only [sendSingleLine]
      rw [if_neg hcode, if_neg hfrom, jsClampQty_of_pos hq, hbal, if_neg (by omega)]
      cases hst : store (sendCall (canonCode productCode) fromLoc qty invNote) <;> simp [hst]
    · intro hto hne
      simp only [transferSingleLine]
      rw [if_neg hcode]
      rw [if_neg (by simp [hfrom, hto])]
      rw [if_neg hne]
      rw [jsClampQty_of_pos hq, hbal, if_neg (by omega)]
      cases hst : store (transferOutCall (canonCode productCode) fromLoc qty invNote) with
      | none =>
        cases hst2 : store (transferInCall (canonCode productCode) toLoc qty invNote) <;>
          simp [hst, hst2]
      | some v => simp [hst]

theorem send_transfer_insufficient_guard_witness :
    sendSingleLine [] [⟨strL "L1", 5, none⟩] (fun _ => none)
        (strL "RB-10-02-16") (some 6) (strL "L1")
      = ⟨[], .error (.insufficientStock 5 6)⟩
    ∧ (sendSingleLine [] [⟨strL "L1", 5, none⟩] (fun _ => none)
        (strL "RB-10-02-16") (some 5) (strL "L1")).calls
      = [sendCall (strL "RB-10-02-16") (strL "L1") 5 []] := by
  have h1 := (send_transfer_insufficient_guard [] [⟨strL "L1", 5, none⟩] (fun _ => none)
      (strL "RB-10-02-16") (strL "L1") (strL "L2") 6 5
      (by decide) (by decide) (by decide) (by decide)).1 (by decide)
  have h2 := (send_transfer_insufficient_guard [] [⟨strL "L1", 5, none⟩] (fun _ => none)
      (strL "RB-10-02-16") (strL "L1") (strL "L2") 5 5
      (by decide) (by decide) (by decide) (by decide)).2 (by decide)
  exact ⟨h1.1, h2.1.trans (by decide)⟩

/-- C10: the single-line executors never reject a non-positive or NaN
quantity: they clamp it (`Math.max(1, Number(qty) || 1)`, i.e. magnitude
`max 1 qty`, and `1` for NaN) and issue the RPC with that magnitude;
the "quantity must be at least 1" rejection lives only in the submit
wrappers above them. -/
theorem executors_clamp_quantity :
    (∀ q : Int, jsClampQty (some q) = max 1 q)
    ∧ jsClampQty none = 1
    ∧ (∀ invNote store productCode qty toLoc,
        canonCode productCode ≠ [] → toLoc ≠ [] →
        (receiveSingleLine invNote store productCode qty toLoc).calls
          = [receiveCall (canonCode productCode) toLoc (jsClampQty qty) invNote])
    ∧ (∀ invNote locBalances store productCode qty fromLoc,
        canonCode productCode ≠ [] → fromLoc ≠ [] →
        jsClampQty qty ≤ getOnHandAt locBalances fromLoc →
        (sendSingleLine invNote locBalances store productCode qty fromLoc).calls
          = [sendCall (canonCode productCode) fromLoc (jsClampQty qty) invNote])
    ∧ (∀ invNote locBalances store productCode qty fromLoc toLoc,
        canonCode productCode ≠ [] → fromLoc ≠ [] → toLoc ≠ [] → fromLoc ≠ toLoc →
        jsClampQty qty ≤ getOnHandAt locBalances fromLoc →
        (transferSingleLine invNote locBalances store productCode qty fromLoc toLoc).calls.head?
          = some (transferOutCall (canonCode productCode) fromLoc (jsClampQty qty) invNote))
    ∧ (∀ invNote store pc toLoc qty, toLoc ≠ [] → jsFalsyOrNonPos qty = true →
        submitReceive invNote store (some pc) toLoc qty = .invalidQty)
    ∧ (∀ invNote locBalances store pc fromLoc qty,
        fromLoc ≠ [] → jsFalsyOrNonPos qty = true →
        submitSend invNote locBalances store (some pc) fromLoc qty = .invalidQty) := by
  refine ⟨?_, rfl, ?_, ?_, ?_, ?_, ?_⟩
  · intro q
    show max 1 (if q = 0 then 1 else q) = max 1 q
    by_cases h : q = 0
    · subst h; decide
    · rw [if_neg h]
  · intro invNote store productCode qty toLoc h1 h2
    simp only [receiveSingleLine]
    rw [if_neg h1, if_neg h2]
    cases hst : store (receiveCall (canonCode productCode) toLoc (jsClampQty qty) invNote) <;>
      simp [hst]
  · intro invNote locBalances store productCode qty fromLoc h1 h2 h3
    simp only [sendSingleLine]
    rw [if_neg h1, if_neg h2, if_neg (by omega)]
    cases hst : store (sendCall (canonCode productCode) fromLoc (jsClampQty qty) invNote) <;>
      simp [hst]
  · intro invNote locBalances store productCode qty fromLoc toLoc h1 h2 h3 h4 h5
    simp only [transferSingleLine]
    rw [if_neg h1]
    rw [if_neg (by simp [h2, h3])]
    rw [if_neg h4]
    rw [if_neg (by omega)]
    cases hst : store (transferOutCall (canonCode productCode) fromLoc (jsClampQty qty) invNote) with
    | none =>
      cases hst2 : store (transferInCall (canonCode productCode) toLoc (jsClampQty qty) invNote) <;>
        simp [hst, hst2]
    | some v => simp [hst]
  · intro invNote store pc toLoc qty h1 h2
    simp only [submitReceive]
    rw [if_neg h1, if_pos h2]
  · intro invNote locBalances store pc fromLoc qty h1 h2
    simp only [submitSend]
    rw [if_neg h1, if_pos h2]

theorem executors_clamp_quantity_witness :
    (receiveSingleLine [] (fun _ => none) (strL "RB-10-02-16") (some (-3)) (strL "L1")).calls
      = [receiveCall (strL "RB-10-02-16") (strL "L1") 1 []]
    ∧ submitReceive [] (fun _ => none) (some (strL "RB-10-02-16")) (strL "L1") (some 0)
      = .invalidQty
    ∧ submitSend [] [] (fun _ => none) (some (strL "RB-10-02-16")) (strL "L1") none
      = .invalidQty := by
  have h1 := executors_clamp_quantity.2.2.1 [] (fun _ => none) (strL "RB-10-02-16")
    (some (-3)) (strL "L1") (by decide) (by decide)
  have h2 := executors_clamp_quantity.2.2.2.2.2.1 [] (fun _ => none) (strL "RB-10-02-16")
    (strL "L1") (some 0) (by decide) (by decide)
  have h3 := executors_clamp_quantity.2.2.2.2.2.2 [] [] (fun _ => none) (strL "RB-10-02-16")
    (strL "L1") none (by decide) (by decide)
  exact ⟨h1.trans (by decide), h2, h3⟩

/-- Behaviour of the shared batch tail over one executor: attempts every
line; on any failure retains exactly the failed lines; on all-success the
cart clears only when no preview code is active or both refreshes
succeed, while a refresh throw reports `batchFailed` and leaves the cart
untouched. -/
theorem runBatchSpec (exec : CartLine → ExecResult)
    (activeCode invProductCode : Option (List Char))
    (globalResp : List Char → Except (List Char) (Option Int))
    (locResp : List Char → Except (List Char) (List LocRow)) (cart : List CartLine) :
    ((runBatch exec activeCode invProductCode globalResp locResp cart).attempted = cart)
    ∧ ((∃ line ∈ cart, isErrB (exec line) = true) →
        (runBatch exec activeCode invProductCode globalResp locResp cart).newCart
          = cart.filter (fun line => isErrB (exec line)))
    ∧ ((∀ line ∈ cart, isErrB (exec line) = false) →
        (jsTruthyStr (jsOrStr activeCode invProductCode) = none →
          (runBatch exec activeCode invProductCode globalResp locResp cart).newCart = []
          ∧ (runBatch exec activeCode invProductCode globalResp locResp cart).success = true)
        ∧ (∀ pc v bals, jsTruthyStr (jsOrStr activeCode invProductCode) = some pc →
            refreshOnHandGlobal (globalResp pc) = .ok v →
            refreshLocBalances (locResp pc) = .ok bals →
            (runBatch exec activeCode invProductCode globalResp locResp cart).newCart = []
            ∧ (runBatch exec activeCode invProductCode globalResp locResp cart).success = true)
        ∧ (∀ pc msg, jsTruthyStr (jsOrStr activeCode invProductCode) = some pc →
            refreshOnHandGlobal (globalResp pc) = .error msg →
            (runBatch exec activeCode invProductCode globalResp locResp cart).newCart = cart
            ∧ (runBatch exec activeCode invProductCode globalResp locResp cart).invError
                = some (.batchFailed msg)
            ∧ (runBatch exec activeCode invProductCode globalResp locResp cart).success = false)
        ∧ (∀ pc v msg, jsTruthyStr (jsOrStr activeCode invProductCode) = some pc →
            refreshOnHandGlobal (globalResp pc) = .ok v →
            refreshLocBalances (locResp pc) = .error msg →
            (runBatch exec activeCode invProductCode globalResp locResp cart).newCart = cart
            ∧ (runBatch exec activeCode invProductCode globalResp locResp cart).invError
                = some (.batchFailed msg)
            ∧ (runBatch exec activeCode invProductCode globalResp locResp cart).success = false)) := by
  refine ⟨runBatch_attempted exec activeCode invProductCode globalResp locResp cart, ?_, ?_⟩
  · intro hex
    apply runBatch_newCart_some_failed
    intro hnil
    obtain ⟨line, hl, herr⟩ := hex
    have := List.filter_eq_nil_iff.mp ((collectFailed_eq_nil_iff exec cart).mp hnil) line hl
    simp [herr] at this
  · intro hall
    have hf : collectFailed exec cart = [] :=
      (collectFailed_eq_nil_iff exec cart).mpr
        (List.filter_eq_nil_iff.mpr (fun line hl => by simp [hall line hl]))
    refine ⟨?_, ?_, ?_, ?_⟩
    · intro hpc
      rw [runBatch_success_nopreview exec activeCode invProductCode globalResp locResp cart hf hpc]
      exact ⟨rfl, rfl⟩
    · intro pc v bals hpc hg hl
      rw [runBatch_success_refresh_ok exec activeCode invProductCode globalResp locResp cart
            pc v bals hf hpc hg hl]
      exact ⟨rfl, rfl⟩
    · intro pc msg hpc hg
      rw [runBatch_global_refresh_fails exec activeCode invProductCode globalResp locResp cart
            pc msg hf hpc hg]
      exact ⟨rfl, rfl, rfl⟩
    · intro pc v msg hpc hg hl
      rw [runBatch_loc_refresh_fails exec activeCode invProductCode globalResp locResp cart
            pc v msg hf hpc hg hl]
      exact ⟨rfl, rfl, rfl⟩

/-- C3 counterexample: every line of the batch succeeds at the store, yet
the cart does NOT become empty — with a product active, the source awaits
`refreshOnHandGlobal`/`refreshLocBalances` before `clearCart`
(App.tsx 1712–1716), a refresh throw lands in the outer catch
(App.tsx 1722) and `clearCart` is skipped, so the all-success cart
survives intact and no success is reported. -/
theorem submitBatch_all_success_cart_cex :
    (∀ line ∈ [(⟨strL "AA-1-1-1", 1⟩ : CartLine)],
      isErrB (receiveSingleLine [] (fun _ => none) line.product_code (some line.qty) (strL "L1"))
        = false)
    ∧ (submitReceiveBatch [] (fun _ => none) (some (strL "AA-1-1-1")) none
        (fun _ => .error (strL "connection lost")) (fun _ => .ok [])
        (strL "L1") [⟨strL "AA-1-1-1", 1⟩]).newCart = [⟨strL "AA-1-1-1", 1⟩]
    ∧ (submitReceiveBatch [] (fun _ => none) (some (strL "AA-1-1-1")) none
        (fun _ => .error (strL "connection lost")) (fun _ => .ok [])
        (strL "L1") [⟨strL "AA-1-1-1", 1⟩]).newCart ≠ ([] : List CartLine)
    ∧ (submitReceiveBatch [] (fun _ => none) (some (strL "AA-1-1-1")) none
        (fun _ => .error (strL "connection lost")) (fun _ => .ok [])
        (strL "L1") [⟨strL "AA-1-1-1", 1⟩]).success = false := by decide

/-- C3 (amended): a non-empty batch attempts every cart line (never
stopping at a failure); when some line fails, the cart is replaced with
exactly the failed lines, each keeping its quantity, being the original
lines themselves; when every line succeeds, the cart becomes empty
PROVIDED the post-loop balance refresh does not throw (no product to
refresh, or both refresh queries succeed) — if a refresh throws, the
batch reports a batch-failed error, skips `clearCart` and leaves the
whole cart in place.  Holds for both the receive and the send batch. -/
theorem submitBatch_attempts_all_retains_failed
    (invNote : List Char) (locBalances : List LocBalance)
    (store : RpcCall → Option (List Char))
    (activeCode invProductCode : Option (List Char))
    (globalResp : List Char → Except (List Char) (Option Int))
    (locResp : List Char → Except (List Char) (List LocRow))
    (receiveToLoc sendFromLoc : List Char) (cart : List CartLine)
    (hto : receiveToLoc ≠ []) (hfrom : sendFromLoc ≠ []) (hcart : cart ≠ []) :
    ((submitReceiveBatch invNote store activeCode invProductCode globalResp locResp
          receiveToLoc cart).attempted = cart
      ∧ ((∃ line ∈ cart,
            isErrB (receiveSingleLine invNote store line.product_code (some line.qty) receiveToLoc)
              = true) →
          (submitReceiveBatch invNote store activeCode invProductCode globalResp locResp
              receiveToLoc cart).newCart
            = cart.filter (fun line =>
                isErrB (receiveSingleLine invNote store line.product_code (some line.qty) receiveToLoc)))
      ∧ ((∀ line ∈ cart,
            isErrB (receiveSingleLine invNote store line.product_code (some line.qty) receiveToLoc)
              = false) →
          (jsTruthyStr (jsOrStr activeCode invProductCode) = none →
            (submitReceiveBatch invNote store activeCode invProductCode globalResp locResp
                receiveToLoc cart).newCart = []
            ∧ (submitReceiveBatch invNote store activeCode invProductCode globalResp locResp
                receiveToLoc cart).success = true)
          ∧ (∀ pc v bals, jsTruthyStr (jsOrStr activeCode invProductCode) = some pc →
              refreshOnHandGlobal (globalResp pc) = .ok v →
              refreshLocBalances (locResp pc) = .ok bals →
              (submitReceiveBatch invNote store activeCode invProductCode globalResp locResp
                  receiveToLoc cart).newCart = []
              ∧ (submitReceiveBatch invNote store activeCode invProductCode globalResp locResp
                  receiveToLoc cart).success = true)
          ∧ (∀ pc msg, jsTruthyStr (jsOrStr activeCode invProductCode) = some pc →
              refreshOnHandGlobal (globalResp pc) = .error msg →
              (submitReceiveBatch invNote store activeCode invProductCode globalResp locResp
                  receiveToLoc cart).newCart = cart
              ∧ (submitReceiveBatch invNote store activeCode invProductCode globalResp locResp
                  receiveToLoc cart).invError = some (.batchFailed msg)
              ∧ (submitReceiveBatch invNote store activeCode invProductCode globalResp locResp
                  receiveToLoc cart).success = false)
          ∧ (∀ pc v msg, jsTruthyStr (jsOrStr activeCode invProductCode) = some pc →
              refreshOnHandGlobal (globalResp pc) = .ok v →
              refreshLocBalances (locResp pc) = .error msg →
              (submitReceiveBatch invNote store activeCode invProductCode globalResp locResp
                  receiveToLoc cart).newCart = cart
              ∧ (submitReceiveBatch invNote store activeCode invProductCode globalResp locResp
                  receiveToLoc cart).invError = some (.batchFailed msg)
              ∧ (submitReceiveBatch invNote store activeCode invProductCode globalResp locResp
                  receiveToLoc cart).success = false)))
    ∧ ((submitSendBatch invNote locBalances store activeCode invProductCode globalResp locResp
          sendFromLoc cart).attempted = cart
      ∧ ((∃ line ∈ cart,
            isErrB (sendSingleLine invNote locBalances store line.product_code (some line.qty) sendFromLoc)
              = true) →
          (submitSendBatch invNote locBalances store activeCode invProductCode globalResp locResp
              sendFromLoc cart).newCart
            = cart.filter (fun line =>
                isErrB (sendSingleLine invNote locBalances store line.product_code (some line.qty) sendFromLoc)))
      ∧ ((∀ line ∈ cart,
            isErrB (sendSingleLine invNote locBalances store line.product_code (some line.qty) sendFromLoc)
              = false) →
          (jsTruthyStr (jsOrStr activeCode invProductCode) = none →
            (submitSendBatch invNote locBalances store activeCode invProductCode globalResp locResp
                sendFromLoc cart).newCart = []
            ∧ (submitSendBatch invNote locBalances store activeCode invProductCode globalResp locResp
                sendFromLoc cart).success = true)
          ∧ (∀ pc v bals, jsTruthyStr (jsOrStr activeCode invProductCode) = some pc →
              refreshOnHandGlobal (globalResp pc) = .ok v →
              refreshLocBalances (locResp pc) = .ok bals →
              (submitSendBatch invNote locBalances store activeCode invProductCode globalResp locResp
                  sendFromLoc cart).newCart = []
              ∧ (submitSendBatch invNote locBalances store activeCode invProductCode globalResp locResp
                  sendFromLoc cart).success = true)
          ∧ (∀ pc msg, jsTruthyStr (jsOrStr activeCode invProductCode) = some pc →
              refreshOnHandGlobal (globalResp pc) = .error msg →
              (submitSendBatch invNote locBalances store activeCode invProductCode globalResp locResp
                  sendFromLoc cart).newCart = cart
              ∧ (submitSendBatch invNote locBalances store activeCode invProductCode globalResp locResp
                  sendFromLoc cart).invError = some (.batchFailed msg)
              ∧ (submitSendBatch invNote locBalances store activeCode invProductCode globalResp locResp
                  sendFromLoc cart).success = false)
          ∧ (∀ pc v msg, jsTruthyStr (jsOrStr activeCode invProductCode) = some pc →
              refreshOnHandGlobal (globalResp pc) = .ok v →
              refreshLocBalances (locResp pc) = .error msg →
              (submitSendBatch invNote locBalances store activeCode invProductCode globalResp locResp
                  sendFromLoc cart).newCart = cart
              ∧ (submitSendBatch invNote locBalances store activeCode invProductCode globalResp locResp
                  sendFromLoc cart).invError = some (.batchFailed msg)
              ∧ (submitSendBatch invNote locBalances store activeCode invProductCode globalResp locResp
                  sendFromLoc cart).success = false))) := by
  have hrec : submitReceiveBatch invNote store activeCode invProductCode globalResp locResp
      receiveToLoc cart =
      runBatch (fun line =>
          receiveSingleLine invNote store line.product_code (some line.qty) receiveToLoc)
        activeCode invProductCode globalResp locResp cart := by
    unfold submitReceiveBatch
    rw [if_neg hto, if_neg hcart]
  have hsend : submitSendBatch invNote locBalances store activeCode invProductCode globalResp locResp
      sendFromLoc cart =
      runBatch (fun line =>
          sendSingleLine invNote locBalances store line.product_code (some line.qty) sendFromLoc)
        activeCode invProductCode globalResp locResp cart := by
    unfold submitSendBatch
    rw [if_neg hfrom, if_neg hcart]
  rw [hrec, hsend]
  exact ⟨runBatchSpec _ activeCode invProductCode globalResp locResp cart,
         runBatchSpec _ activeCode invProductCode globalResp locResp cart⟩

theorem submitBatch_attempts_all_retains_failed_witness :
    (submitReceiveBatch []
        (fun c => if c.p_product_code = strL "BB-1-1-1" then some (strL "no stock") else none)
        none none (fun _ => .ok (some 4)) (fun _ => .ok []) (strL "L1")
        [⟨strL "AA-1-1-1", 2⟩, ⟨strL "BB-1-1-1", 1⟩, ⟨strL "CC-1-1-1", 3⟩]).attempted
      = [⟨strL "AA-1-1-1", 2⟩, ⟨strL "BB-1-1-1", 1⟩, ⟨strL "CC-1-1-1", 3⟩]
    ∧ (submitReceiveBatch []
        (fun c => if c.p_product_code = strL "BB-1-1-1" then some (strL "no stock") else none)
        none none (fun _ => .ok (some 4)) (fun _ => .ok []) (strL "L1")
        [⟨strL "AA-1-1-1", 2⟩, ⟨strL "BB-1-1-1", 1⟩, ⟨strL "CC-1-1-1", 3⟩]).newCart
      = [⟨strL "BB-1-1-1", 1⟩]
    ∧ (submitReceiveBatch [] (fun _ => none) (some (strL "AA-1-1-1")) none
        (fun _ => .ok (some 4)) (fun _ => .ok []) (strL "L1")
        [⟨strL "AA-1-1-1", 1⟩]).newCart = []
    ∧ (submitReceiveBatch [] (fun _ => none) (some (strL "AA-1-1-1")) none
        (fun _ => .ok (some 4)) (fun _ => .ok []) (strL "L1")
        [⟨strL "AA-1-1-1", 1⟩]).success = true := by
  have h1 := submitBatch_attempts_all_retains_failed [] []
    (fun c => if c.p_product_code = strL "BB-1-1-1" then some (strL "no stock") else none)
    none none (fun _ => .ok (some 4)) (fun _ => .ok []) (strL "L1") (strL "L1")
    [⟨strL "AA-1-1-1", 2⟩, ⟨strL "BB-1-1-1", 1⟩, ⟨strL "CC-1-1-1", 3⟩]
    (by decide) (by decide) (by decide)
  have h2 := submitBatch_attempts_all_retains_failed [] [] (fun _ => none)
    (some (strL "AA-1-1-1")) none (fun _ => .ok (some 4)) (fun _ => .ok [])
    (strL "L1") (strL "L1") [⟨strL "AA-1-1-1", 1⟩]
    (by decide) (by decide) (by decide)
  have h2ok := (h2.1.2.2 (by decide)).2.1 (strL "AA-1-1-1") 4 [] (by decide) (by decide) (by decide)
  exact ⟨h1.1.1,
    (h1.1.2.1 ⟨⟨strL "BB-1-1-1", 1⟩, by decide, by decide⟩).trans (by decide),
    h2ok.1, h2ok.2⟩

/-- C7 counterexample: `addToCart` PREPENDS a fresh code, so a cart built
by adding A and then B is `[B, A]`, and batch submit — which iterates the
cart array in order — processes B's line before A's, contradicting the
claimed insertion order. -/
theorem submit_insertion_order_cex :
    addToCart (strL "BB-1-1-1") (addToCart (strL "AA-1-1-1") [])
      = [⟨strL "BB-1-1-1", 1⟩, ⟨strL "AA-1-1-1", 1⟩]
    ∧ (submitReceiveBatch [] (fun _ => none) none none
        (fun _ => .ok none) (fun _ => .ok []) (strL "L1")
        (addToCart (strL "BB-1-1-1") (addToCart (strL "AA-1-1-1") []))).attempted
      = [⟨strL "BB-1-1-1", 1⟩, ⟨strL "AA-1-1-1", 1⟩]
    ∧ ([⟨strL "BB-1-1-1", 1⟩, ⟨strL "AA-1-1-1", 1⟩] : List CartLine)
      ≠ [⟨strL "AA-1-1-1", 1⟩, ⟨strL "BB-1-1-1", 1⟩] := by decide

/-- C7 (amended): batch submit invokes the engine once per cart line in
cart-array order, and `addToCart` prepends a fresh code to the front of
the array — so lines are processed most-recently-added first, the
reverse of insertion order for distinct codes. -/
theorem submit_iterates_cart_array_order :
    (∀ invNote store activeCode invProductCode globalResp locResp toLoc cart,
      toLoc ≠ [] → cart ≠ [] →
      (submitReceiveBatch invNote store activeCode invProductCode globalResp locResp
        toLoc cart).attempted = cart)
    ∧ (∀ codeRaw prev, canonCode codeRaw ≠ [] →
        (∀ x ∈ prev, x.product_code ≠ canonCode codeRaw) →
        addToCart codeRaw prev = ⟨canonCode codeRaw, 1⟩ :: prev) := by
  constructor
  · intro invNote store activeCode invProductCode globalResp locResp toLoc cart hto hcart
    unfold submitReceiveBatch
    rw [if_neg hto, if_neg hcart]
    exact runBatch_attempted _ _ _ _ _ _
  · intro codeRaw prev h0 hfresh
    unfold addToCart
    rw [if_neg h0]
    rw [if_neg (fun hany => by
      rw [List.any_eq_true] at hany
      obtain ⟨x, hx, hbeq⟩ := hany
      exact hfresh x hx (by simpa using hbeq))]

theorem submit_iterates_cart_array_order_witness :
    (submitReceiveBatch [] (fun _ => none) none none
        (fun _ => .ok none) (fun _ => .ok []) (strL "L1")
        [⟨strL "AA-1-1-1", 2⟩]).attempted = [⟨strL "AA-1-1-1", 2⟩]
    ∧ addToCart (strL "BB-1-1-1") [⟨strL "AA-1-1-1", 2⟩]
      = ⟨strL "BB-1-1-1", 1⟩ :: [⟨strL "AA-1-1-1", 2⟩] := by
  refine ⟨submit_iterates_cart_array_order.1 [] (fun _ => none) none none
      (fun _ => .ok none) (fun _ => .ok []) (strL "L1")
      [⟨strL "AA-1-1-1", 2⟩] (by decide) (by decide), ?_⟩
  have h := submit_iterates_cart_array_order.2 (strL "BB-1-1-1")
    [⟨strL "AA-1-1-1", 2⟩] (by decide) (by decide)
  exact h.trans (by decide)

/-- C9: from the empty cart, any sequence of addToCart / updateCartQty /
removeFromCart / clearCart operations keeps every quantity ≥ 1 and the
product codes pairwise distinct; an add for a code already present
creates no new line (the matched line's qty is bumped by one), and the
quantity written by updateCartQty is clamped to at least 1. -/
theorem cart_invariant_spec :
    (∀ ops, cartInv (applyCartOps ops))
    ∧ (∀ codeRaw st, canonCode codeRaw ∈ st.map CartLine.product_code →
        (addToCart codeRaw st).map CartLine.product_code = st.map CartLine.product_code)
    ∧ (∀ codeRaw st l, canonCode codeRaw ∈ st.map CartLine.product_code →
        l ∈ addToCart codeRaw st → l ∈ st ∨ ∃ x ∈ st, l = { x with qty := x.qty + 1 })
    ∧ (∀ code q st l, l ∈ updateCartQty code q st → l ∈ st ∨ l.qty = jsClampQty q)
    ∧ (∀ q, 1 ≤ jsClampQty q) := by
  have hbranch : ∀ codeRaw st, canonCode codeRaw ∈ st.map CartLine.product_code →
      canonCode codeRaw ≠ [] → addToCart codeRaw st = bumpFirst (canonCode codeRaw) st := by
    intro codeRaw st hmem h0
    obtain ⟨x, hx, he⟩ := List.mem_map.mp hmem
    unfold addToCart
    rw [if_neg h0]
    rw [if_pos (List.any_eq_true.mpr ⟨x, hx, by simp [he]⟩)]
  refine ⟨?_, ?_, ?_, ?_, jsClampQty_ge_one⟩
  · intro ops
    exact cartInv_foldl ops [] ⟨fun l hl => absurd hl (List.not_mem_nil l), List.nodup_nil⟩
  · intro codeRaw st hmem
    by_cases h0 : canonCode codeRaw = []
    · unfold addToCart
      rw [if_pos h0]
    · rw [hbranch codeRaw st hmem h0]
      exact bumpFirst_codes _ _
  · intro codeRaw st l hmem hl
    by_cases h0 : canonCode codeRaw = []
    · left
      unfold addToCart at hl
      rw [if_pos h0] at hl
      exact hl
    · rw [hbranch codeRaw st hmem h0] at hl
      exact mem_bumpFirst hl
  · intro code q st l hl
    exact mem_updateCartQty hl

theorem cart_invariant_spec_witness :
    cartInv (applyCartOps
      [.add (strL "AA-1-1-1"), .add (strL "AA-1-1-1"), .setQty (strL "AA-1-1-1") (some 0)])
    ∧ (addToCart (strL "AA-1-1-1") [⟨strL "AA-1-1-1", 2⟩]).map CartLine.product_code
        = [(⟨strL "AA-1-1-1", 2⟩ : CartLine)].map CartLine.product_code
    ∧ ((⟨strL "AA-1-1-1", 3⟩ : CartLine) ∈ [(⟨strL "AA-1-1-1", 2⟩ : CartLine)]
        ∨ ∃ x ∈ [(⟨strL "AA-1-1-1", 2⟩ : CartLine)],
            (⟨strL "AA-1-1-1", 3⟩ : CartLine) = { x with qty := x.qty + 1 })
    ∧ ((⟨strL "AA-1-1-1", 1⟩ : CartLine) ∈ [(⟨strL "AA-1-1-1", 2⟩ : CartLine)]
        ∨ (⟨strL "AA-1-1-1", 1⟩ : CartLine).qty = jsClampQty (some 0))
    ∧ (1 : Int) ≤ jsClampQty (some (-7)) := by
  refine ⟨cart_invariant_spec.1 _, cart_invariant_spec.2.1 _ _ (by decide),
    cart_invariant_spec.2.2.1 (strL "AA-1-1-1") _ _ (by decide) (by decide),
    cart_invariant_spec.2.2.2.1 (strL "AA-1-1-1") (some 0) [⟨strL "AA-1-1-1", 2⟩] _ (by decide),
    cart_invariant_spec.2.2.2.2 _⟩

/-- C4 counterexample: the recent-moves fetch of a lookup checks no
generation — `loadRecentMovesCont` run on behalf of a superseded lookup
(the counter is already at 2) still overwrites `invMoves` of the shared
state, so not every continuation step of a stale lookup aborts without
mutating shared result state. -/
theorem invScan_recent_moves_stale_cex :
    (loadRecentMovesCont (.ok [⟨1, 2, none, strL "t", strL "L1", strL "L2"⟩])
        ⟨2, none, [], none, 0, none, none, false, none, none, [], []⟩).invMoves
      = [⟨1, 2, none, strL "t", strL "L1", strL "L2"⟩]
    ∧ loadRecentMovesCont (.ok [⟨1, 2, none, strL "t", strL "L1", strL "L2"⟩])
        ⟨2, none, [], none, 0, none, none, false, none, none, [], []⟩
      ≠ ⟨2, none, [], none, 0, none, none, false, none, none, [], []⟩ := by decide

/-- C4 (amended): every continuation inside `handleInventoryModeScan` —
existence check, image fetch, on-hand fetch, adjustment-history fetch and
the final on-hand commit — returns the state unchanged (no mutation, no
error) when its captured generation differs from the counter; the
recent-moves step (`loadRecentMoves`), however, checks no generation and
writes `invMoves` unconditionally.  Each new lookup bumps the counter, so
a lookup superseded by a later one fails the comparison. -/
theorem invScan_guard_discards_stale :
    (∀ reqId pc resp st, reqId ≠ st.invReq → invScanProdCont reqId pc resp st = st)
    ∧ (∀ reqId gpu resp st, reqId ≠ st.invReq → invScanImageCont reqId gpu resp st = st)
    ∧ (∀ reqId resp st, reqId ≠ st.invReq → invScanOnHandCont reqId resp st = st)
    ∧ (∀ reqId resp st, reqId ≠ st.invReq → invScanAdjCont reqId resp st = st)
    ∧ (∀ reqId row st, reqId ≠ st.invReq → invScanFinishCont reqId row st = st)
    ∧ (∀ resp st, (loadRecentMovesCont resp st).invMoves
        = match resp with | .error _ => [] | .ok data => data)
    ∧ (∀ pc st, (invScanStart pc st).2.invReq = st.invReq + 1
        ∧ (invScanStart pc st).1 = st.invReq + 1) := by
  refine ⟨?_, ?_, ?_, ?_, ?_, ?_, fun pc st => ⟨rfl, rfl⟩⟩
  · intro reqId pc resp st h
    unfold invScanProdCont
    rw [if_pos h]
  · intro reqId gpu resp st h
    unfold invScanImageCont
    rw [if_pos h]
  · intro reqId resp st h
    unfold invScanOnHandCont
    rw [if_pos h]
  · intro reqId resp st h
    unfold invScanAdjCont
    rw [if_pos h]
  · intro reqId row st h
    unfold invScanFinishCont
    rw [if_pos h]
  · intro resp st
    cases resp <;> rfl

theorem invScan_guard_discards_stale_witness :
    invScanProdCont 1 (strL "RB-10-02-16") (.ok none)
        ⟨2, none, [], none, 0, none, none, true, none, none, [], []⟩
      = ⟨2, none, [], none, 0, none, none, true, none, none, [], []⟩
    ∧ invScanImageCont 1 id (.error (strL "boom"))
        ⟨2, none, [], none, 0, none, none, true, none, none, [], []⟩
      = ⟨2, none, [], none, 0, none, none, true, none, none, [], []⟩
    ∧ invScanOnHandCont 1 (.ok (some 7))
        ⟨2, none, [], none, 0, none, none, true, none, none, [], []⟩
      = ⟨2, none, [], none, 0, none, none, true, none, none, [], []⟩
    ∧ invScanAdjCont 1 (.ok [⟨1, 3, none, none, strL "t"⟩])
        ⟨2, none, [], none, 0, none, none, true, none, none, [], []⟩
      = ⟨2, none, [], none, 0, none, none, true, none, none, [], []⟩
    ∧ invScanFinishCont 1 (some 7)
        ⟨2, none, [], none, 0, none, none, true, none, none, [], []⟩
      = ⟨2, none, [], none, 0, none, none, true, none, none, [], []⟩
    ∧ (loadRecentMovesCont (.error (strL "boom"))
        ⟨2, none, [], none, 0, none, none, true, none, none, [], []⟩).invMoves = [] := by
  refine ⟨invScan_guard_discards_stale.1 1 _ _ _ (by decide),
    invScan_guard_discards_stale.2.1 1 id _ _ (by decide),
    invScan_guard_discards_stale.2.2.1 1 _ _ (by decide),
    invScan_guard_discards_stale.2.2.2.1 1 _ _ (by decide),
    invScan_guard_discards_stale.2.2.2.2.1 1 _ _ (by decide),
    invScan_guard_discards_stale.2.2.2.2.2.1 _ _⟩

/-- C6 counterexample: `normalizeProductCode` has no uppercase step (a
lowercase code survives verbatim), and it strips the image extension
AFTER dash replacement and whitespace removal, not before — on
`"RB-10-02-16.J PG"` it disagrees with the claimed step order
(`specNormalizeProductCode`, modelled from the spec). -/
theorem normalize_order_uppercase_cex :
    normalizeProductCode (strL "rb-10-02-16") = strL "rb-10-02-16"
    ∧ (∃ ch ∈ normalizeProductCode (strL "rb-10-02-16"), ch.isLower = true)
    ∧ normalizeProductCode (strL "RB-10-02-16.J PG") = strL "RB-10-02-16"
    ∧ specNormalizeProductCode (strL "RB-10-02-16.J PG") = strL "RB-10-02-16.JPG"
    ∧ normalizeProductCode (strL "RB-10-02-16.J PG")
      ≠ specNormalizeProductCode (strL "RB-10-02-16.J PG") := by decide

/-- C6 (amended): the normalizer performs, in order: trim; keep the final
path segment; cut at `'?'` then `'#'`; replace unicode dashes; remove
internal whitespace; strip a trailing image extension LAST — and never
uppercases.  The uppercasing happens in its callers
(`handleInventorySearch` and the scan decode callback), so the
ProductCode they derive contains no lowercase letters. -/
theorem normalize_pipeline_callers_uppercase :
    (∀ raw, normalizeProductCode raw =
      stripImageExt (removeWs (dashReplace (takeUntil '#' (takeUntil '?'
        (if (jsTrim raw).contains '/' then afterLastSlash (jsTrim raw) else jsTrim raw))))))
    ∧ (∀ raw ch, ch ∈ handleInventorySearchCode raw → ch.isLower = false)
    ∧ (∀ raw ch, ch ∈ scanCallbackCode raw → ch.isLower = false) := by
  refine ⟨fun raw => rfl, ?_, ?_⟩
  · intro raw ch hch
    obtain ⟨x, hx, he⟩ := List.mem_map.mp hch
    rw [← he]
    exact isLower_toUpper_false x
  · intro raw ch hch
    obtain ⟨x, hx, he⟩ := List.mem_map.mp hch
    rw [← he]
    exact isLower_toUpper_false x

theorem normalize_pipeline_callers_uppercase_witness :
    normalizeProductCode (strL "rb-10-02-16") =
      stripImageExt (removeWs (dashReplace (takeUntil '#' (takeUntil '?'
        (if (jsTrim (strL "rb-10-02-16")).contains '/'
         then afterLastSlash (jsTrim (strL "rb-10-02-16"))
         else jsTrim (strL "rb-10-02-16"))))))
    ∧ ('R').isLower = false := by
  refine ⟨normalize_pipeline_callers_uppercase.1 _, ?_⟩
  exact normalize_pipeline_callers_uppercase.2.1 (strL "rb-10-02-16") 'R' (by decide)

/-- C5 counterexample: normalizing a valid code with a trailing slash
appended does NOT yield the code: `"RB-10-02-16/".split("/").pop()` is
the empty string, so the whole dirty form normalizes to `""`. -/
theorem normalize_trailing_slash_cex :
    isValidProductCodeFormat (strL "RB-10-02-16") = true
    ∧ normalizeProductCode (strL "RB-10-02-16/") = []
    ∧ normalizeProductCode (strL "RB-10-02-16/")
      ≠ normalizeProductCode (strL "RB-10-02-16") := by decide

/-- C5 (amended): for every valid product code `c`, appending a query
string, a fragment, or an image-file extension — or embedding `c` as the
last path segment of a URL, with or without a query — normalizes to the
same result as `c` itself (which normalizes to itself); appending a
trailing slash instead yields the EMPTY string, because the last path
segment after the final `'/'` is empty.  Query/fragment/URL-prefix text
ranges over strings without whitespace (and, after the last slash,
without further slashes). -/
theorem normalize_strips_dirty_forms
    (c p q f e : List Char)
    (hval : isValidProductCodeFormat c = true)
    (hq : ∀ ch ∈ q, jsIsSpace ch = false ∧ ch ≠ '/')
    (hf : ∀ ch ∈ f, jsIsSpace ch = false ∧ ch ≠ '/')
    (hp : ∀ ch ∈ p, jsIsSpace ch = false)
    (he : e = strL ".png" ∨ e = strL ".jpg" ∨ e = strL ".jpeg" ∨ e = strL ".webp") :
    normalizeProductCode c = c
    ∧ normalizeProductCode (c ++ '?' :: q) = normalizeProductCode c
    ∧ normalizeProductCode (c ++ '#' :: f) = normalizeProductCode c
    ∧ normalizeProductCode (c ++ e) = normalizeProductCode c
    ∧ normalizeProductCode (p ++ '/' :: c) = normalizeProductCode c
    ∧ normalizeProductCode (p ++ '/' :: (c ++ '?' :: q)) = normalizeProductCode c
    ∧ normalizeProductCode (c ++ ['/']) = [] := by
  have hc := valid_code_clean hval
  have hself := normalizeProductCode_clean hc
  rw [hself]
  exact ⟨rfl, normalizeProductCode_query hc hq,
    normalizeProductCode_fragment hc hf, normalizeProductCode_ext hc he,
    normalizeProductCode_url hp hc, normalizeProductCode_url_query hp hc hq,
    normalizeProductCode_trailing_slash hc⟩

theorem normalize_strips_dirty_forms_witness :
    normalizeProductCode (strL "RB-10-02-16") = strL "RB-10-02-16"
    ∧ normalizeProductCode (strL "RB-10-02-16" ++ '?' :: strL "x=1")
      = normalizeProductCode (strL "RB-10-02-16")
    ∧ normalizeProductCode (strL "RB-10-02-16" ++ '#' :: strL "frag")
      = normalizeProductCode (strL "RB-10-02-16")
    ∧ normalizeProductCode (strL "RB-10-02-16" ++ strL ".jpg")
      = normalizeProductCode (strL "RB-10-02-16")
    ∧ normalizeProductCode (strL "https://x.y/img" ++ '/' :: strL "RB-10-02-16")
      = normalizeProductCode (strL "RB-10-02-16")
    ∧ normalizeProductCode
        (strL "https://x.y/img" ++ '/' :: (strL "RB-10-02-16" ++ '?' :: strL "x=1"))
      = normalizeProductCode (strL "RB-10-02-16")
    ∧ normalizeProductCode (strL "RB-10-02-16" ++ ['/']) = [] := by
  have h := normalize_strips_dirty_forms (strL "RB-10-02-16") (strL "https://x.y/img")
    (strL "x=1") (strL "frag") (strL ".jpg")
    (by decide) (by decide) (by decide) (by decide) (Or.inr (Or.inl rfl))
  exact ⟨h.1, h.2.1, h.2.2.1, h.2.2.2.1, h.2.2.2.2.1, h.2.2.2.2.2.1, h.2.2.2.2.2.2⟩
